import Mathlib

/-!
# Span algebra of `span_testbed`

A shallow embedding of `span.go`, `usage_span.go`, `property_span.go` and the
part of `main.go` that builds the sample spans.

* `int64` timestamps are integers; the only arithmetic on them is the
  subtraction in `Length`, which wraps to 64 bits (`wrapInt64`).
* `*int64` is `Option Int`: `nil` is `none`.  No function writes through an
  end pointer (`MinEndTS` and `MaxEndTS` allocate), so sharing is not modelled.
* The interface `Span` is a class of method tables.  A setter is a function
  returning the receiver as the caller sees it after the call.
* A value of interface type that may be `nil` (the results of `SpanOverlap`,
  `SpanMerge`, `SpanDiff`) is an `Option`; a method call on `nil` is the
  fault `nilDereference`.
* `GetSpanOverlaps` takes sequences of spans; `GetSpanOverlapsIface` is the same
  sweep on slices whose elements may be nil interface values, and agrees with
  it on slices without nil (`getSpanOverlapsIface_map_some`).
* The `for` loop of `GetSpanOverlaps` is a step function on the loop state,
  iterated with fuel `len(baseSpans) + len(applySpans)`; `sweepLoop_invariant`
  shows that this fuel always reaches the end of the loop.
* `GoSpan` carries the two record types of the repository with their
  value-receiver setters; `RecSpan` is a record whose setters replace the
  field.
* The type parameters of `GenericSpanOverlap` and `GenericGetSpanOverlaps` are
  types with a `SpanImpl` instance: the methods of the type, its conversion to
  the interface type, the type assertion and the zero value.
-/

namespace SpanTestbed

/-! ## Faults and machine integers -/

/-- Ways a run can stop without returning.  The first three are Go run-time
panics.  The last is not Go behaviour: it marks a run of the loop model that
was cut short by its step budget. -/
inductive Fault where
  | nilDereference
  | indexOutOfRange
  | typeAssertion
  | outOfFuel
deriving DecidableEq, Repr

/-- Two's complement wrap-around of an integer to the range of `int64`. -/
def wrapInt64 (x : Int) : Int :=
  (x + 2 ^ 63) % 2 ^ 64 - 2 ^ 63

/-- The range of `int64`. -/
def isInt64 (x : Int) : Prop :=
  -(2 ^ 63) ≤ x ∧ x < 2 ^ 63

instance (x : Int) : Decidable (isInt64 x) := by
  unfold isInt64; infer_instance

/-! ## The `Span` interface (span.go, lines 8-14) -/

/-- Method table of the Go interface `Span`.  `SetStartTS s t` and
`SetEndTS s e` give the value the caller holds after the call. -/
class Span (S : Type) where
  GetStartTS : S → Int
  GetEndTS : S → Option Int
  SetStartTS : S → Int → S
  SetEndTS : S → Option Int → S
  Copy : S → S

open Span

/-- Method call on an interface value that may be `nil`. -/
def deref {S : Type} (x : Option S) : Except Fault S :=
  match x with
  | some s => .ok s
  | none => .error .nilDereference

/-- Slice indexing `xs[i]`, which panics out of range. -/
def index {S : Type} (xs : List S) (i : Nat) : Except Fault S :=
  match xs[i]? with
  | some s => .ok s
  | none => .error .indexOutOfRange

/-! ## Scalar helpers (span.go, lines 18-65) -/

def MinStartTS (start1 start2 : Int) : Int :=
  if start1 < start2 then start1 else start2

def MaxStartTS (start1 start2 : Int) : Int :=
  if start1 > start2 then start1 else start2

def MinEndTS (end1 end2 : Option Int) : Option Int :=
  match end1, end2 with
  | none, none => none
  | none, some e2 => some e2
  | some e1, none => some e1
  | some e1, some e2 => if e1 ≤ e2 then some e1 else some e2

def MaxEndTS (end1 end2 : Option Int) : Option Int :=
  match end1, end2 with
  | some e1, some e2 => if e1 ≥ e2 then some e1 else some e2
  | _, _ => none

section Algebra

variable {S : Type} [Span S]

/-! ## Properties of a span (span.go, lines 69-91) -/

def IsValid (span : S) : Bool :=
  match GetEndTS span with
  | none => true
  | some e => decide (e ≥ GetStartTS span)

def IsOpen (span : S) : Bool :=
  (GetEndTS span).isNone

def IsClosed (span : S) : Bool :=
  (GetEndTS span).isSome

def IsZeroLength (span : S) : Bool :=
  match GetEndTS span with
  | none => false
  | some e => decide (e = GetStartTS span)

def Length (span : S) : Option Int :=
  match GetEndTS span with
  | none => none
  | some e => some (wrapInt64 (e - GetStartTS span))

/-! ## A span and a timestamp (span.go, lines 95-105) -/

def SpanIsBeforeTime (span : S) (ts : Int) : Bool :=
  match GetEndTS span with
  | none => false
  | some e => decide (e > ts)

def SpanIsAfterTime (span : S) (ts : Int) : Bool :=
  decide (ts < GetStartTS span)

def SpanContainsTime (span : S) (ts : Int) : Bool :=
  decide (ts ≥ GetStartTS span) &&
    (match GetEndTS span with
     | none => true
     | some e => decide (e ≥ ts))

/-! ## Two spans (span.go, lines 109-166) -/

def SpansEqual (baseSpan applySpan : S) : Bool :=
  decide (GetStartTS baseSpan = GetStartTS applySpan) &&
    (match GetEndTS baseSpan, GetEndTS applySpan with
     | none, none => true
     | some eb, some ea => decide (eb = ea)
     | _, _ => false)

def SpanLeftOf (baseSpan applySpan : S) : Bool :=
  match GetEndTS baseSpan with
  | none => false
  | some eb => decide (eb ≤ GetStartTS applySpan)

def SpanRightOf (baseSpan applySpan : S) : Bool :=
  match GetEndTS applySpan with
  | none => false
  | some ea => decide (ea ≤ GetStartTS baseSpan)

def HasOverlap (baseSpan applySpan : S) : Bool :=
  !(SpanLeftOf baseSpan applySpan || SpanRightOf baseSpan applySpan)

def Adjacent (baseSpan applySpan : S) : Bool :=
  let laterStart := MaxStartTS (GetStartTS baseSpan) (GetStartTS applySpan)
  let earlyEnd := MinEndTS (GetEndTS baseSpan) (GetEndTS applySpan)
  match earlyEnd with
  | none => false
  | some e => decide (laterStart = e)

def StartsBefore (baseSpan applySpan : S) : Bool :=
  decide (GetStartTS baseSpan < GetStartTS applySpan)

def StartsAtSameTime (baseSpan applySpan : S) : Bool :=
  decide (GetStartTS baseSpan = GetStartTS applySpan)

def StartsAfter (baseSpan applySpan : S) : Bool :=
  decide (GetStartTS baseSpan > GetStartTS applySpan)

def EndsBefore (baseSpan applySpan : S) : Bool :=
  match GetEndTS baseSpan, GetEndTS applySpan with
  | none, _ => false
  | some _, none => true
  | some eb, some ea => decide (eb < ea)

def EndsAtSameTime (baseSpan applySpan : S) : Bool :=
  match GetEndTS baseSpan, GetEndTS applySpan with
  | none, none => true
  | some eb, some ea => decide (eb = ea)
  | _, _ => false

def EndsAfter (baseSpan applySpan : S) : Bool :=
  match GetEndTS applySpan, GetEndTS baseSpan with
  | none, _ => false
  | some _, none => true
  | some ea, some eb => decide (eb > ea)

/-! ## Derived spans (span.go, lines 169-229) -/

/-- `SpanOverlap`: the result variable `overlap` starts as the nil interface
and is assigned only when the spans overlap. -/
def SpanOverlap (baseSpan applySpan : S) : Option S :=
  if HasOverlap baseSpan applySpan then
    let overlap := Copy baseSpan
    let overlap := SetStartTS overlap (MaxStartTS (GetStartTS baseSpan) (GetStartTS applySpan))
    let overlap := SetEndTS overlap (MinEndTS (GetEndTS baseSpan) (GetEndTS applySpan))
    some overlap
  else
    none

/-- `SpanMerge`: line 182 declares the result `merge` (nil).  Line 184,
`merge := baseSpan.Copy()`, declares a second variable of the same name whose
scope is the `if` block; line 188 returns the first. -/
def SpanMerge (baseSpan applySpan : S) : Option S :=
  let merge : Option S := none
  if HasOverlap baseSpan applySpan || Adjacent baseSpan applySpan then
    let mergeInBlock := Copy baseSpan
    let mergeInBlock :=
      SetStartTS mergeInBlock (MinStartTS (GetStartTS baseSpan) (GetStartTS applySpan))
    let _mergeInBlock :=
      SetEndTS mergeInBlock (MaxEndTS (GetEndTS baseSpan) (GetEndTS applySpan))
    merge
  else
    merge

/-- `SpanDiff`, returning `(leftDiff, rightDiff, hasOverlap)`.  Line 202 calls
`overlap.GetStartTS()` before anything else, which faults when `overlap` is
nil.  Lines 215 and 223 declare block-local variables with `:=`; the named
results `leftDiff` and `rightDiff` are never assigned. -/
def SpanDiff (baseSpan applySpan : S) : Except Fault (Option S × Option S × Bool) := do
  let leftDiff : Option S := none
  let rightDiff : Option S := none
  let overlap ← deref (SpanOverlap baseSpan applySpan)
  if decide (GetStartTS overlap > 0) && (Length overlap).isNone then
    return (leftDiff, rightDiff, false)
  let hasOverlap := true
  let _leftDiffInBlock : Option S :=
    if StartsBefore baseSpan overlap then
      some (SetEndTS (Copy baseSpan) (some (GetStartTS overlap)))
    else none
  let rightDiffInBlock : Except Fault (Option S) :=
    if EndsBefore overlap baseSpan then
      match GetEndTS overlap with
      | some rightDiffStart => .ok (some (SetStartTS (Copy baseSpan) rightDiffStart))
      | none => .error .nilDereference
    else .ok none
  let _ ← rightDiffInBlock
  return (leftDiff, rightDiff, hasOverlap)

/-! ## The sweep (span.go, lines 231-256) -/

/-- Variables of the loop in `GetSpanOverlaps`. -/
structure SweepState (S : Type) where
  baseSpanIdx : Nat
  applySpanIdx : Nat
  overlaps : List S

/-- Loop condition, line 234. -/
def sweepCond (baseSpans applySpans : List S) (st : SweepState S) : Bool :=
  decide (st.baseSpanIdx < baseSpans.length) && decide (st.applySpanIdx < applySpans.length)

/-- Loop body, lines 235-252. -/
def sweepBody (baseSpans applySpans : List S) (st : SweepState S) :
    Except Fault (SweepState S) := do
  let baseSpan ← index baseSpans st.baseSpanIdx
  let applySpan ← index applySpans st.applySpanIdx
  if SpanLeftOf baseSpan applySpan then
    return { st with baseSpanIdx := st.baseSpanIdx + 1 }
  else if SpanRightOf baseSpan applySpan then
    return { st with applySpanIdx := st.applySpanIdx + 1 }
  else
    let overlap := SpanOverlap baseSpan applySpan
    let overlaps :=
      match overlap with
      | some ov => st.overlaps ++ [ov]
      | none => st.overlaps
    -- `EndsAtSameTime(baseSpan, overlap)` calls `overlap.GetEndTS()`
    let ov ← deref overlap
    if EndsAtSameTime baseSpan ov then
      return { baseSpanIdx := st.baseSpanIdx + 1, applySpanIdx := st.applySpanIdx,
               overlaps := overlaps }
    else
      return { baseSpanIdx := st.baseSpanIdx, applySpanIdx := st.applySpanIdx + 1,
               overlaps := overlaps }

/-- The loop, run for at most `fuel` iterations. -/
def sweepLoop (baseSpans applySpans : List S) : Nat → SweepState S → Except Fault (SweepState S)
  | 0, st =>
    if sweepCond baseSpans applySpans st then .error .outOfFuel else .ok st
  | fuel + 1, st =>
    if sweepCond baseSpans applySpans st then
      match sweepBody baseSpans applySpans st with
      | .ok st1 => sweepLoop baseSpans applySpans fuel st1
      | .error e => .error e
    else .ok st

def GetSpanOverlaps (baseSpans applySpans : List S) : Except Fault (List S) :=
  match sweepLoop baseSpans applySpans (baseSpans.length + applySpans.length)
      { baseSpanIdx := 0, applySpanIdx := 0, overlaps := [] } with
  | .ok st => .ok st.overlaps
  | .error e => .error e

end Algebra

/-! ## The sweep on slices that may hold nil (span.go, lines 231-256)

An element of a Go `[]Span` is an interface value and may be nil.  The
definitions below repeat the sweep with such elements: a method call on a nil
element is the fault `nilDereference`. -/

section NilElements

variable {S : Type} [Span S]

/-- `SpanLeftOf` on interface values that may be nil: `baseSpan.GetEndTS()` is
called first; `applySpan.GetStartTS()` is called only if that end is not
nil. -/
def SpanLeftOfIface (baseSpan applySpan : Option S) : Except Fault Bool := do
  let b ← deref baseSpan
  match GetEndTS b with
  | none => return false
  | some eb =>
    let a ← deref applySpan
    return decide (eb ≤ GetStartTS a)

/-- `SpanRightOf` on interface values that may be nil: `applySpan.GetEndTS()`
is called first; `baseSpan.GetStartTS()` is called only if that end is not
nil. -/
def SpanRightOfIface (baseSpan applySpan : Option S) : Except Fault Bool := do
  let a ← deref applySpan
  match GetEndTS a with
  | none => return false
  | some ea =>
    let b ← deref baseSpan
    return decide (ea ≤ GetStartTS b)

/-- Loop condition, line 234. -/
def sweepCondIface (baseSpans applySpans : List (Option S)) (st : SweepState S) : Bool :=
  decide (st.baseSpanIdx < baseSpans.length) && decide (st.applySpanIdx < applySpans.length)

/-- Loop body, lines 235-252, on elements that may be nil.  Once `SpanLeftOf`
and `SpanRightOf` have returned, both elements have answered a method call. -/
def sweepBodyIface (baseSpans applySpans : List (Option S)) (st : SweepState S) :
    Except Fault (SweepState S) := do
  let baseIface ← index baseSpans st.baseSpanIdx
  let applyIface ← index applySpans st.applySpanIdx
  if ← SpanLeftOfIface baseIface applyIface then
    return { st with baseSpanIdx := st.baseSpanIdx + 1 }
  else if ← SpanRightOfIface baseIface applyIface then
    return { st with applySpanIdx := st.applySpanIdx + 1 }
  else
    let baseSpan ← deref baseIface
    let applySpan ← deref applyIface
    let overlap := SpanOverlap baseSpan applySpan
    let overlaps :=
      match overlap with
      | some ov => st.overlaps ++ [ov]
      | none => st.overlaps
    let ov ← deref overlap
    if EndsAtSameTime baseSpan ov then
      return { baseSpanIdx := st.baseSpanIdx + 1, applySpanIdx := st.applySpanIdx,
               overlaps := overlaps }
    else
      return { baseSpanIdx := st.baseSpanIdx, applySpanIdx := st.applySpanIdx + 1,
               overlaps := overlaps }

/-- The loop on elements that may be nil, run for at most `fuel` iterations. -/
def sweepLoopIface (baseSpans applySpans : List (Option S)) :
    Nat → SweepState S → Except Fault (SweepState S)
  | 0, st =>
    if sweepCondIface baseSpans applySpans st then .error .outOfFuel else .ok st
  | fuel + 1, st =>
    if sweepCondIface baseSpans applySpans st then
      match sweepBodyIface baseSpans applySpans st with
      | .ok st1 => sweepLoopIface baseSpans applySpans fuel st1
      | .error e => .error e
    else .ok st

/-- `GetSpanOverlaps` on slices whose elements may be nil. -/
def GetSpanOverlapsIface (baseSpans applySpans : List (Option S)) : Except Fault (List S) :=
  match sweepLoopIface baseSpans applySpans (baseSpans.length + applySpans.length)
      { baseSpanIdx := 0, applySpanIdx := 0, overlaps := [] } with
  | .ok st => .ok st.overlaps
  | .error e => .error e

end NilElements

/-! ## The record types of the repository -/

/-- `UsageSpan` of usage_span.go. -/
structure UsageSpan where
  Id : String
  Name : String
  StartTS : Int
  EndTS : Option Int
deriving DecidableEq, Repr

/-- `PropertySpan` of property_span.go. -/
structure PropertySpan where
  Id : String
  Name : String
  StartTS : Int
  EndTS : Option Int
deriving DecidableEq, Repr

namespace UsageSpan

def GetStartTS (s : UsageSpan) : Int := s.StartTS

def GetEndTS (s : UsageSpan) : Option Int := s.EndTS

/-- Value receiver: `s.StartTS = t` assigns to the method's own copy of the
record, so the caller's value is what it was. -/
def SetStartTS (s : UsageSpan) (t : Int) : UsageSpan :=
  let _receiverCopy : UsageSpan := { s with StartTS := t }
  s

/-- Value receiver, as for `SetStartTS`. -/
def SetEndTS (s : UsageSpan) (tp : Option Int) : UsageSpan :=
  let _receiverCopy : UsageSpan := { s with EndTS := tp }
  s

def Copy (s : UsageSpan) : UsageSpan :=
  { Id := s.Id, Name := s.Name, StartTS := s.StartTS, EndTS := s.EndTS }

end UsageSpan

namespace PropertySpan

def GetStartTS (s : PropertySpan) : Int := s.StartTS

def GetEndTS (s : PropertySpan) : Option Int := s.EndTS

/-- Value receiver: the assignment is to the method's own copy. -/
def SetStartTS (s : PropertySpan) (t : Int) : PropertySpan :=
  let _receiverCopy : PropertySpan := { s with StartTS := t }
  s

/-- Value receiver, as for `SetStartTS`. -/
def SetEndTS (s : PropertySpan) (tp : Option Int) : PropertySpan :=
  let _receiverCopy : PropertySpan := { s with EndTS := tp }
  s

def Copy (s : PropertySpan) : PropertySpan :=
  { Id := s.Id, Name := s.Name, StartTS := s.StartTS, EndTS := s.EndTS }

end PropertySpan

/-- A non-nil value of interface type `Span` in this program: one of the two
record types, with its dynamic type. -/
inductive GoSpan where
  | usage (s : UsageSpan)
  | property (s : PropertySpan)
deriving DecidableEq, Repr

/-- Dynamic dispatch on the two record types. -/
instance : Span GoSpan where
  GetStartTS
    | .usage s => s.GetStartTS
    | .property s => s.GetStartTS
  GetEndTS
    | .usage s => s.GetEndTS
    | .property s => s.GetEndTS
  SetStartTS
    | .usage s, t => .usage (s.SetStartTS t)
    | .property s, t => .property (s.SetStartTS t)
  SetEndTS
    | .usage s, tp => .usage (s.SetEndTS tp)
    | .property s, tp => .property (s.SetEndTS tp)
  Copy
    | .usage s => .usage s.Copy
    | .property s => .property s.Copy

/-- The span `usage` built in `main` (main.go, lines 10-15). -/
def mainUsage : UsageSpan :=
  { Id := "test-usage-span", Name := "test-usage-span", StartTS := 100, EndTS := some 200 }

/-- The span `property` built in `main` (main.go, lines 16-21). -/
def mainProperty : PropertySpan :=
  { Id := "property-of-usage", Name := "property-of-usage", StartTS := 150, EndTS := some 250 }

/-- A `UsageSpan` with the given timestamps, as an interface value. -/
def usageSpan (startTS : Int) (endTS : Option Int) : GoSpan :=
  .usage { Id := "usage", Name := "usage", StartTS := startTS, EndTS := endTS }

/-- A `PropertySpan` with the given timestamps, as an interface value. -/
def propertySpan (startTS : Int) (endTS : Option Int) : GoSpan :=
  .property { Id := "property", Name := "property", StartTS := startTS, EndTS := endTS }

/-! ## A span whose setters replace the field -/

/-- A record (start, optional end, metadata) implementing `Span` with setters
that take effect, as a pointer-receiver implementation does: `Copy` gives a
fresh record and a setter replaces the one field. -/
structure RecSpan (M : Type) where
  StartTS : Int
  EndTS : Option Int
  Metadata : M
deriving DecidableEq, Repr

instance (M : Type) : Span (RecSpan M) where
  GetStartTS s := s.StartTS
  GetEndTS s := s.EndTS
  SetStartTS s t := { s with StartTS := t }
  SetEndTS s e := { s with EndTS := e }
  Copy s := { StartTS := s.StartTS, EndTS := s.EndTS, Metadata := s.Metadata }

/-- A closed span without metadata, `{start, end}` in the spec's scenarios. -/
def closedSpan (startTS endTS : Int) : RecSpan Unit :=
  { StartTS := startTS, EndTS := some endTS, Metadata := () }

/-- An open span without metadata. -/
def openSpan (startTS : Int) : RecSpan Unit :=
  { StartTS := startTS, EndTS := none, Metadata := () }

/-! ## The type-preserving sweep (span.go, lines 265-298) -/

/-- A Go type `T` that implements `Span`, together with the interface type
whose non-nil values are `S`: the methods of `T` (`Copy` returns an interface
value), the conversion `toSpan` of a `T` to the interface type, the type
assertion `x.(T)`, and the zero value of `T`.  The laws say that a method call
on an interface value holding a `T` is the method of `T`, and that the type
assertion succeeds exactly on the interface values holding a `T`. -/
class SpanImpl (T : Type) (S : outParam Type) [Span S] where
  GetStartTS : T → Int
  GetEndTS : T → Option Int
  SetStartTS : T → Int → T
  SetEndTS : T → Option Int → T
  Copy : T → S
  toSpan : T → S
  assertType : S → Option T
  zero : T
  getStartTS_toSpan : ∀ t, Span.GetStartTS (toSpan t) = GetStartTS t
  getEndTS_toSpan : ∀ t, Span.GetEndTS (toSpan t) = GetEndTS t
  setStartTS_toSpan : ∀ t x, Span.SetStartTS (toSpan t) x = toSpan (SetStartTS t x)
  setEndTS_toSpan : ∀ t e, Span.SetEndTS (toSpan t) e = toSpan (SetEndTS t e)
  copy_toSpan : ∀ t, Span.Copy (toSpan t) = Copy t
  assertType_eq_some : ∀ s t, assertType s = some t ↔ toSpan t = s

section Generic

variable {S T U : Type} [Span S] [SpanImpl T S] [SpanImpl U S]

/-- The type assertion `x.(T)` in its one-result form, which panics when the
dynamic type of `x` is not `T`. -/
def castTo (T : Type) {S : Type} [Span S] [SpanImpl T S] (x : S) : Except Fault T :=
  match SpanImpl.assertType x with
  | some t => .ok t
  | none => .error .typeAssertion

/-- `GenericSpanOverlap`: `overlap` starts as the zero value of `T`. -/
def GenericSpanOverlap (baseSpan : T) (applySpan : U) : Except Fault T := do
  let overlap : T := SpanImpl.zero
  if HasOverlap (SpanImpl.toSpan baseSpan) (SpanImpl.toSpan applySpan) then
    let overlap ← castTo T (SpanImpl.Copy baseSpan)
    let overlap := SpanImpl.SetStartTS overlap
      (MaxStartTS (SpanImpl.GetStartTS baseSpan) (SpanImpl.GetStartTS applySpan))
    let overlap := SpanImpl.SetEndTS overlap
      (MinEndTS (SpanImpl.GetEndTS baseSpan) (SpanImpl.GetEndTS applySpan))
    return overlap
  else
    return overlap

/-- Loop condition of `GenericGetSpanOverlaps`, line 278. -/
def genericSweepCond (baseSpans : List T) (applySpans : List U) (st : SweepState T) : Bool :=
  decide (st.baseSpanIdx < baseSpans.length) && decide (st.applySpanIdx < applySpans.length)

/-- Loop body of `GenericGetSpanOverlaps`, lines 279-294: the overlap is
appended without a nil test. -/
def genericSweepBody (baseSpans : List T) (applySpans : List U) (st : SweepState T) :
    Except Fault (SweepState T) := do
  let baseSpan ← index baseSpans st.baseSpanIdx
  let applySpan ← index applySpans st.applySpanIdx
  if SpanLeftOf (SpanImpl.toSpan baseSpan) (SpanImpl.toSpan applySpan) then
    return { st with baseSpanIdx := st.baseSpanIdx + 1 }
  else if SpanRightOf (SpanImpl.toSpan baseSpan) (SpanImpl.toSpan applySpan) then
    return { st with applySpanIdx := st.applySpanIdx + 1 }
  else
    let overlap ← GenericSpanOverlap baseSpan applySpan
    let overlaps := st.overlaps ++ [overlap]
    if EndsAtSameTime (SpanImpl.toSpan baseSpan) (SpanImpl.toSpan overlap) then
      return { baseSpanIdx := st.baseSpanIdx + 1, applySpanIdx := st.applySpanIdx,
               overlaps := overlaps }
    else
      return { baseSpanIdx := st.baseSpanIdx, applySpanIdx := st.applySpanIdx + 1,
               overlaps := overlaps }

/-- The loop of `GenericGetSpanOverlaps`, run for at most `fuel` iterations. -/
def genericSweepLoop (baseSpans : List T) (applySpans : List U) :
    Nat → SweepState T → Except Fault (SweepState T)
  | 0, st =>
    if genericSweepCond baseSpans applySpans st then .error .outOfFuel else .ok st
  | fuel + 1, st =>
    if genericSweepCond baseSpans applySpans st then
      match genericSweepBody baseSpans applySpans st with
      | .ok st1 => genericSweepLoop baseSpans applySpans fuel st1
      | .error e => .error e
    else .ok st

def GenericGetSpanOverlaps (baseSpans : List T) (applySpans : List U) :
    Except Fault (List T) :=
  match genericSweepLoop baseSpans applySpans (baseSpans.length + applySpans.length)
      { baseSpanIdx := 0, applySpanIdx := 0, overlaps := [] } with
  | .ok st => .ok st.overlaps
  | .error e => .error e

/-- The loop state of the type-preserving sweep, with the collected spans
converted to the interface type. -/
def toSpanState (st : SweepState T) : SweepState S :=
  { baseSpanIdx := st.baseSpanIdx, applySpanIdx := st.applySpanIdx,
    overlaps := st.overlaps.map SpanImpl.toSpan }

end Generic

/-- `UsageSpan` implements `Span`; its zero value has empty strings, start 0
and a nil end. -/
instance : SpanImpl UsageSpan GoSpan where
  GetStartTS := UsageSpan.GetStartTS
  GetEndTS := UsageSpan.GetEndTS
  SetStartTS := UsageSpan.SetStartTS
  SetEndTS := UsageSpan.SetEndTS
  Copy s := .usage s.Copy
  toSpan := .usage
  assertType
    | .usage s => some s
    | .property _ => none
  zero := { Id := "", Name := "", StartTS := 0, EndTS := none }
  getStartTS_toSpan _ := rfl
  getEndTS_toSpan _ := rfl
  setStartTS_toSpan _ _ := rfl
  setEndTS_toSpan _ _ := rfl
  copy_toSpan _ := rfl
  assertType_eq_some s t := by cases s <;> simp [eq_comm]

/-- `PropertySpan` implements `Span`. -/
instance : SpanImpl PropertySpan GoSpan where
  GetStartTS := PropertySpan.GetStartTS
  GetEndTS := PropertySpan.GetEndTS
  SetStartTS := PropertySpan.SetStartTS
  SetEndTS := PropertySpan.SetEndTS
  Copy s := .property s.Copy
  toSpan := .property
  assertType
    | .property s => some s
    | .usage _ => none
  zero := { Id := "", Name := "", StartTS := 0, EndTS := none }
  getStartTS_toSpan _ := rfl
  getEndTS_toSpan _ := rfl
  setStartTS_toSpan _ _ := rfl
  setEndTS_toSpan _ _ := rfl
  copy_toSpan _ := rfl
  assertType_eq_some s t := by cases s <;> simp [eq_comm]

/-! ## Preconditions of the sweep -/

section Preconditions

variable {S : Type} [Span S]

/-- Every span of the sequence is valid. -/
def AllValid (spans : List S) : Prop :=
  ∀ s ∈ spans, IsValid s = true

/-- The sequence is sorted ascending by start: a span never starts after a
later span of the sequence. -/
def SortedByStart (spans : List S) : Prop :=
  spans.Pairwise (fun x y => GetStartTS x ≤ GetStartTS y)

/-- No two distinct spans of the sequence satisfy `HasOverlap`.  The relation
is stated for a span and a later one; `HasOverlap` is symmetric. -/
def NoOverlapWithin (spans : List S) : Prop :=
  spans.Pairwise (fun x y => HasOverlap x y = false)

/-- No zero-length span comes after a span of the sequence that starts at the
same time and is not zero-length. -/
def ZeroLengthFirst (spans : List S) : Prop :=
  spans.Pairwise (fun x y =>
    StartsAtSameTime x y = true → IsZeroLength y = true → IsZeroLength x = true)

/-- Every span of the sequence is `SpanLeftOf` every later span. -/
def LeftOfLater (spans : List S) : Prop :=
  spans.Pairwise (fun x y => SpanLeftOf x y = true)

end Preconditions

/-- Invariant of the sweep: the overlap of every overlapping pair with an
element already passed has been collected. -/
def Collected {M : Type} (baseSpans applySpans : List (RecSpan M))
    (st : SweepState (RecSpan M)) : Prop :=
  ∀ (i j : Nat) (b a ov : RecSpan M), baseSpans[i]? = some b → applySpans[j]? = some a →
    SpanOverlap b a = some ov → i < st.baseSpanIdx ∨ j < st.applySpanIdx → ov ∈ st.overlaps

/-! ## Attribution of the result to index pairs -/

section Attribution

variable {S : Type} [Span S]

/-- The result element `r` comes from the index pair `p`: the spans at `p` in
the two sequences overlap and `r` is their `SpanOverlap`. -/
def FromPair (baseSpans applySpans : List S) (r : S) (p : Nat × Nat) : Prop :=
  ∃ b a, baseSpans[p.1]? = some b ∧ applySpans[p.2]? = some a ∧ HasOverlap b a = true ∧
    SpanOverlap b a = some r

/-- Ghost record of the loop: `pairs` lists, in the order of the collected
spans, the index pair each one comes from; the sums of the indices increase
along the list and stay below the sum of the current indices. -/
def Attributed (baseSpans applySpans : List S) (st : SweepState S)
    (pairs : List (Nat × Nat)) : Prop :=
  List.Forall₂ (FromPair baseSpans applySpans) st.overlaps pairs ∧
    pairs.Pairwise (fun p q => p.1 + p.2 < q.1 + q.2) ∧
    ∀ p ∈ pairs, p.1 + p.2 < st.baseSpanIdx + st.applySpanIdx

/-- The index pairs `(i, j)` with `HasOverlap(base[i], apply[j])`. -/
def overlapPairs (baseSpans applySpans : List S) : List (Nat × Nat) :=
  (List.product (List.range baseSpans.length) (List.range applySpans.length)).filter
    (fun p =>
      match baseSpans[p.1]?, applySpans[p.2]? with
      | some b, some a => HasOverlap b a
      | _, _ => false)

/-- Every span of the sequence is `SpanLeftOf` its successor. -/
def Chained (spans : List S) : Prop :=
  List.Chain' (fun x y => SpanLeftOf x y = true) spans

end Attribution

/-! ## Basic facts about the algebra -/

theorem maxStartTS_le_iff (s1 s2 t : Int) : MaxStartTS s1 s2 ≤ t ↔ s1 ≤ t ∧ s2 ≤ t := by
  unfold MaxStartTS
  split <;> omega

theorem le_minEndTS_iff (e1 e2 : Option Int) (t : Int) :
    (∀ e, MinEndTS e1 e2 = some e → t ≤ e) ↔
      (∀ e, e1 = some e → t ≤ e) ∧ (∀ e, e2 = some e → t ≤ e) := by
  cases e1 with
  | none =>
    cases e2 with
    | none => simp [MinEndTS]
    | some y => simp [MinEndTS]
  | some x =>
    cases e2 with
    | none => simp [MinEndTS]
    | some y =>
      simp only [MinEndTS, Option.some.injEq, forall_eq']
      split
      · simp only [Option.some.injEq, forall_eq']; omega
      · simp only [Option.some.injEq, forall_eq']; omega

section Facts

variable {S : Type} [Span S]

theorem hasOverlap_eq_true_iff (a b : S) :
    HasOverlap a b = true ↔ SpanLeftOf a b = false ∧ SpanRightOf a b = false := by
  unfold HasOverlap
  cases SpanLeftOf a b <;> cases SpanRightOf a b <;> simp

theorem hasOverlap_eq_false_iff (a b : S) :
    HasOverlap a b = false ↔ SpanLeftOf a b = true ∨ SpanRightOf a b = true := by
  unfold HasOverlap
  cases SpanLeftOf a b <;> cases SpanRightOf a b <;> simp

theorem spanOverlap_of_hasOverlap (a b : S) (h : HasOverlap a b = true) :
    SpanOverlap a b = some (SetEndTS (SetStartTS (Copy a)
      (MaxStartTS (GetStartTS a) (GetStartTS b))) (MinEndTS (GetEndTS a) (GetEndTS b))) := by
  simp [SpanOverlap, h]

theorem spanOverlap_of_not_hasOverlap (a b : S) (h : HasOverlap a b = false) :
    SpanOverlap a b = none := by
  simp [SpanOverlap, h]

theorem spanContainsTime_iff (s : S) (t : Int) :
    SpanContainsTime s t = true ↔ GetStartTS s ≤ t ∧ ∀ e, GetEndTS s = some e → t ≤ e := by
  unfold SpanContainsTime
  cases GetEndTS s <;> simp

theorem spanRightOf_eq_spanLeftOf_swap (a b : S) : SpanRightOf a b = SpanLeftOf b a := rfl

/-- The sweep over two one-element sequences, for any implementation of the
interface. -/
theorem getSpanOverlaps_singleton (a b : S) :
    GetSpanOverlaps [a] [b] = .ok (SpanOverlap a b).toList := by
  cases hl : SpanLeftOf a b
  · cases hr : SpanRightOf a b
    · have ho : HasOverlap a b = true := (hasOverlap_eq_true_iff a b).2 ⟨hl, hr⟩
      rw [spanOverlap_of_hasOverlap a b ho]
      cases he : EndsAtSameTime a (SetEndTS (SetStartTS (Copy a)
          (MaxStartTS (GetStartTS a) (GetStartTS b))) (MinEndTS (GetEndTS a) (GetEndTS b))) <;>
        simp [GetSpanOverlaps, sweepLoop, sweepCond, sweepBody, index, deref, hl, hr,
          spanOverlap_of_hasOverlap a b ho, he, bind, Except.bind, pure, Except.pure]
    · have ho : HasOverlap a b = false := (hasOverlap_eq_false_iff a b).2 (Or.inr hr)
      rw [spanOverlap_of_not_hasOverlap a b ho]
      simp [GetSpanOverlaps, sweepLoop, sweepCond, sweepBody, index, hl, hr,
        bind, Except.bind, pure, Except.pure]
  · have ho : HasOverlap a b = false := (hasOverlap_eq_false_iff a b).2 (Or.inl hl)
    rw [spanOverlap_of_not_hasOverlap a b ho]
    simp [GetSpanOverlaps, sweepLoop, sweepCond, sweepBody, index, hl,
      bind, Except.bind, pure, Except.pure]

/-- Whatever `SpanDiff` returns, its left and right results are nil. -/
theorem spanDiff_ok_results (a b : S) (r : Option S × Option S × Bool)
    (h : SpanDiff a b = .ok r) : r.1 = none ∧ r.2.1 = none := by
  unfold SpanDiff at h
  cases ho : SpanOverlap a b with
  | none => simp [ho, deref, bind, Except.bind] at h
  | some ov =>
    simp only [ho, deref, bind, Except.bind, pure, Except.pure] at h
    split at h
    · cases h; exact ⟨rfl, rfl⟩
    · split at h
      · cases h
      · cases h; exact ⟨rfl, rfl⟩

theorem spanMerge_eq_none (a b : S) : SpanMerge a b = none := by
  unfold SpanMerge
  split <;> rfl

theorem spanDiff_of_not_hasOverlap (a b : S) :
    HasOverlap a b = true ∨ SpanDiff a b = .error .nilDereference := by
  cases ho : HasOverlap a b
  · right
    simp [SpanDiff, spanOverlap_of_not_hasOverlap a b ho, deref, bind, Except.bind]
  · left; rfl

end Facts

/-! ## The loop of the sweep -/

section Sweep

variable {S : Type} [Span S]

theorem pairwise_of_getElem_some {α : Type} {R : α → α → Prop} {l : List α} (h : l.Pairwise R)
    {i j : Nat} {x y : α} (hi : l[i]? = some x) (hj : l[j]? = some y) (hij : i < j) :
    R x y := by
  obtain ⟨hi1, rfl⟩ := List.getElem?_eq_some.1 hi
  obtain ⟨hj1, rfl⟩ := List.getElem?_eq_some.1 hj
  exact List.pairwise_iff_getElem.1 h i j hi1 hj1 hij

omit [Span S] in
/-- The loop condition says that both indices are in range. -/
theorem sweepCond_iff (baseSpans applySpans : List S) (st : SweepState S) :
    sweepCond baseSpans applySpans st = true ↔
      st.baseSpanIdx < baseSpans.length ∧ st.applySpanIdx < applySpans.length := by
  simp [sweepCond]

/-- One pass through the loop body, when the loop condition holds: it never
faults, and it takes one of four steps. -/
theorem sweepBody_cases (baseSpans applySpans : List S) (st : SweepState S)
    (hc : sweepCond baseSpans applySpans st = true) :
    ∃ b a, baseSpans[st.baseSpanIdx]? = some b ∧ applySpans[st.applySpanIdx]? = some a ∧
      ((SpanLeftOf b a = true ∧
          sweepBody baseSpans applySpans st
            = .ok ⟨st.baseSpanIdx + 1, st.applySpanIdx, st.overlaps⟩) ∨
        (SpanLeftOf b a = false ∧ SpanRightOf b a = true ∧
          sweepBody baseSpans applySpans st
            = .ok ⟨st.baseSpanIdx, st.applySpanIdx + 1, st.overlaps⟩) ∨
        (∃ ov, HasOverlap b a = true ∧ SpanOverlap b a = some ov ∧
          EndsAtSameTime b ov = true ∧
          sweepBody baseSpans applySpans st
            = .ok ⟨st.baseSpanIdx + 1, st.applySpanIdx, st.overlaps ++ [ov]⟩) ∨
        (∃ ov, HasOverlap b a = true ∧ SpanOverlap b a = some ov ∧
          EndsAtSameTime b ov = false ∧
          sweepBody baseSpans applySpans st
            = .ok ⟨st.baseSpanIdx, st.applySpanIdx + 1, st.overlaps ++ [ov]⟩)) := by
  obtain ⟨hi, hj⟩ := (sweepCond_iff baseSpans applySpans st).1 hc
  refine ⟨baseSpans[st.baseSpanIdx], applySpans[st.applySpanIdx],
    List.getElem?_eq_getElem hi, List.getElem?_eq_getElem hj, ?_⟩
  generalize hb : baseSpans[st.baseSpanIdx] = b
  generalize ha : applySpans[st.applySpanIdx] = a
  have hb1 : baseSpans[st.baseSpanIdx]? = some b := by rw [List.getElem?_eq_getElem hi, hb]
  have ha1 : applySpans[st.applySpanIdx]? = some a := by rw [List.getElem?_eq_getElem hj, ha]
  cases hl : SpanLeftOf b a
  · cases hr : SpanRightOf b a
    · have ho : HasOverlap b a = true := (hasOverlap_eq_true_iff b a).2 ⟨hl, hr⟩
      have hov := spanOverlap_of_hasOverlap b a ho
      cases he : EndsAtSameTime b (SetEndTS (SetStartTS (Copy b)
          (MaxStartTS (GetStartTS b) (GetStartTS a))) (MinEndTS (GetEndTS b) (GetEndTS a)))
      · right; right; right
        refine ⟨_, ho, hov, he, ?_⟩
        simp [sweepBody, index, deref, hb1, ha1, hl, hr, hov, he, bind, Except.bind, pure,
          Except.pure]
      · right; right; left
        refine ⟨_, ho, hov, he, ?_⟩
        simp [sweepBody, index, deref, hb1, ha1, hl, hr, hov, he, bind, Except.bind, pure,
          Except.pure]
    · right; left
      refine ⟨rfl, rfl, ?_⟩
      simp [sweepBody, index, hb1, ha1, hl, hr, bind, Except.bind, pure, Except.pure]
  · left
    refine ⟨rfl, ?_⟩
    simp [sweepBody, index, hb1, ha1, hl, bind, Except.bind, pure, Except.pure]

/-- Each pass moves exactly one index forward by one and keeps what was
collected. -/
theorem sweepBody_advances (baseSpans applySpans : List S) (st st1 : SweepState S)
    (hc : sweepCond baseSpans applySpans st = true)
    (h : sweepBody baseSpans applySpans st = .ok st1) :
    ((st1.baseSpanIdx = st.baseSpanIdx + 1 ∧ st1.applySpanIdx = st.applySpanIdx) ∨
      (st1.baseSpanIdx = st.baseSpanIdx ∧ st1.applySpanIdx = st.applySpanIdx + 1)) ∧
      ∃ new, st1.overlaps = st.overlaps ++ new := by
  obtain ⟨b, a, -, -, hcase⟩ := sweepBody_cases baseSpans applySpans st hc
  rcases hcase with ⟨-, h1⟩ | ⟨-, -, h1⟩ | ⟨ov, -, -, -, h1⟩ | ⟨ov, -, -, -, h1⟩ <;>
    (rw [h1] at h; cases h)
  · exact ⟨Or.inl ⟨rfl, rfl⟩, [], by simp⟩
  · exact ⟨Or.inr ⟨rfl, rfl⟩, [], by simp⟩
  · exact ⟨Or.inl ⟨rfl, rfl⟩, [ov], rfl⟩
  · exact ⟨Or.inr ⟨rfl, rfl⟩, [ov], rfl⟩

/-- Invariant rule for the loop: with fuel for every element not yet passed,
the loop returns a state in which the loop condition is false, and every
property kept by the body holds of it. -/
theorem sweepLoop_invariant (baseSpans applySpans : List S) (Inv : SweepState S → Prop)
    (hpres : ∀ st st1, sweepCond baseSpans applySpans st = true → Inv st →
      sweepBody baseSpans applySpans st = .ok st1 → Inv st1) :
    ∀ (fuel : Nat) (st : SweepState S),
      (baseSpans.length - st.baseSpanIdx) + (applySpans.length - st.applySpanIdx) ≤ fuel →
      Inv st →
      ∃ st1, sweepLoop baseSpans applySpans fuel st = .ok st1 ∧ Inv st1 ∧
        sweepCond baseSpans applySpans st1 = false := by
  intro fuel
  induction fuel with
  | zero =>
    intro st hm hinv
    have hc : sweepCond baseSpans applySpans st = false := by
      cases hc : sweepCond baseSpans applySpans st
      · rfl
      · obtain ⟨hi, hj⟩ := (sweepCond_iff baseSpans applySpans st).1 hc
        omega
    exact ⟨st, by simp [sweepLoop, hc], hinv, hc⟩
  | succ n ih =>
    intro st hm hinv
    cases hc : sweepCond baseSpans applySpans st
    · exact ⟨st, by simp [sweepLoop, hc], hinv, hc⟩
    · obtain ⟨hi, hj⟩ := (sweepCond_iff baseSpans applySpans st).1 hc
      obtain ⟨b, a, -, -, hcase⟩ := sweepBody_cases baseSpans applySpans st hc
      have hex : ∃ st1, sweepBody baseSpans applySpans st = .ok st1 := by
        rcases hcase with ⟨-, h1⟩ | ⟨-, -, h1⟩ | ⟨ov, -, -, -, h1⟩ | ⟨ov, -, -, -, h1⟩ <;>
          exact ⟨_, h1⟩
      obtain ⟨st1, hst1⟩ := hex
      obtain ⟨hadv, -⟩ := sweepBody_advances baseSpans applySpans st st1 hc hst1
      have hm1 : (baseSpans.length - st1.baseSpanIdx) +
          (applySpans.length - st1.applySpanIdx) ≤ n := by
        rcases hadv with ⟨h1, h2⟩ | ⟨h1, h2⟩ <;> omega
      obtain ⟨st2, hrun, hinv2, hc2⟩ := ih st1 hm1 (hpres st st1 hc hinv hst1)
      exact ⟨st2, by simp [sweepLoop, hc, hst1, hrun], hinv2, hc2⟩

/-- The sweep returns, for all inputs, the list collected by a run of the loop
that ends with the loop condition false and satisfies every invariant that
holds initially. -/
theorem getSpanOverlaps_invariant (baseSpans applySpans : List S) (Inv : SweepState S → Prop)
    (hpres : ∀ st st1, sweepCond baseSpans applySpans st = true → Inv st →
      sweepBody baseSpans applySpans st = .ok st1 → Inv st1)
    (h0 : Inv ⟨0, 0, []⟩) :
    ∃ st1, GetSpanOverlaps baseSpans applySpans = .ok st1.overlaps ∧ Inv st1 ∧
      sweepCond baseSpans applySpans st1 = false := by
  obtain ⟨st1, hrun, hinv, hc⟩ := sweepLoop_invariant baseSpans applySpans Inv hpres
    (baseSpans.length + applySpans.length) ⟨0, 0, []⟩ (by simp) h0
  exact ⟨st1, by simp [GetSpanOverlaps, hrun], hinv, hc⟩

end Sweep

/-! ## Completeness of the sweep for setters that replace the field -/

section Complete

variable {M : Type}

theorem spanLeftOf_iff {S : Type} [Span S] (x y : S) :
    SpanLeftOf x y = true ↔ ∃ e, GetEndTS x = some e ∧ e ≤ GetStartTS y := by
  unfold SpanLeftOf
  cases GetEndTS x <;> simp

theorem spanRightOf_iff {S : Type} [Span S] (x y : S) :
    SpanRightOf x y = true ↔ ∃ e, GetEndTS y = some e ∧ e ≤ GetStartTS x := by
  unfold SpanRightOf
  cases GetEndTS y <;> simp

theorem hasOverlap_of_spanOverlap {S : Type} [Span S] (x y ov : S)
    (h : SpanOverlap x y = some ov) : HasOverlap x y = true := by
  cases ho : HasOverlap x y
  · rw [spanOverlap_of_not_hasOverlap x y ho] at h; cases h
  · rfl

/-- With setters that replace the field, the end of the overlap is the earlier
end. -/
theorem spanOverlap_end (b a ov : RecSpan M) (h : SpanOverlap b a = some ov) :
    GetEndTS ov = MinEndTS (GetEndTS b) (GetEndTS a) := by
  rw [spanOverlap_of_hasOverlap b a (hasOverlap_of_spanOverlap b a ov h)] at h
  cases h
  rfl

/-- With setters that replace the field, the start of the overlap is the later
start. -/
theorem spanOverlap_start (b a ov : RecSpan M) (h : SpanOverlap b a = some ov) :
    GetStartTS ov = MaxStartTS (GetStartTS b) (GetStartTS a) := by
  rw [spanOverlap_of_hasOverlap b a (hasOverlap_of_spanOverlap b a ov h)] at h
  cases h
  rfl

/-- The base span is passed after an overlap only if it is closed and ends no
later than a closed apply span, or both are open. -/
theorem endsAtSameTime_overlap_true (b a ov : RecSpan M) (h : SpanOverlap b a = some ov)
    (he : EndsAtSameTime b ov = true) (f : Int) (hf : GetEndTS a = some f) :
    ∃ e, GetEndTS b = some e ∧ e ≤ f := by
  have hov := spanOverlap_end b a ov h
  unfold EndsAtSameTime at he
  rw [hov, hf] at he
  cases hb : GetEndTS b with
  | none => simp [hb, MinEndTS] at he
  | some e =>
    refine ⟨e, rfl, ?_⟩
    by_cases hle : e ≤ f
    · exact hle
    · simp only [hb, MinEndTS, hle, if_false, decide_eq_true_eq] at he
      omega

/-- The apply span is passed after an overlap only if it is closed and ends
before a closed base span does. -/
theorem endsAtSameTime_overlap_false (b a ov : RecSpan M) (h : SpanOverlap b a = some ov)
    (he : EndsAtSameTime b ov = false) (e : Int) (hb : GetEndTS b = some e) :
    ∃ f, GetEndTS a = some f ∧ f < e := by
  have hov := spanOverlap_end b a ov h
  unfold EndsAtSameTime at he
  rw [hov, hb] at he
  cases ha : GetEndTS a with
  | none => simp [ha, MinEndTS] at he
  | some f =>
    refine ⟨f, rfl, ?_⟩
    by_cases hle : e ≤ f
    · simp [ha, MinEndTS, hle] at he
    · omega

/-- The loop body keeps `Collected` when each sequence is sorted by start and
each of its spans is left of every later one. -/
theorem collected_preserved (baseSpans applySpans : List (RecSpan M))
    (hsb : SortedByStart baseSpans) (hsa : SortedByStart applySpans)
    (hlb : LeftOfLater baseSpans) (hla : LeftOfLater applySpans)
    (st st1 : SweepState (RecSpan M)) (hc : sweepCond baseSpans applySpans st = true)
    (hinv : Collected baseSpans applySpans st)
    (hst1 : sweepBody baseSpans applySpans st = .ok st1) :
    Collected baseSpans applySpans st1 := by
  obtain ⟨b, a, hb, ha, hcase⟩ := sweepBody_cases baseSpans applySpans st hc
  intro i j b1 a1 ov hb1 ha1 hov hlt
  have ho1 := hasOverlap_of_spanOverlap b1 a1 ov hov
  have hnl : SpanLeftOf b1 a1 = false := ((hasOverlap_eq_true_iff b1 a1).1 ho1).1
  have hnr : SpanRightOf b1 a1 = false := ((hasOverlap_eq_true_iff b1 a1).1 ho1).2
  rcases hcase with ⟨hl, h1⟩ | ⟨-, hr, h1⟩ | ⟨ov0, -, hov0, he, h1⟩ | ⟨ov0, -, hov0, he, h1⟩ <;>
    (rw [h1] at hst1; cases hst1; simp only at hlt ⊢)
  · -- the base span is left of the apply span, hence of all later apply spans
    by_cases hold : i < st.baseSpanIdx ∨ j < st.applySpanIdx
    · exact hinv i j b1 a1 ov hb1 ha1 hov hold
    · exfalso
      have hi : i = st.baseSpanIdx := by omega
      subst hi
      rw [hb] at hb1; cases hb1
      obtain ⟨e, hbe, hle⟩ := (spanLeftOf_iff b a).1 hl
      have hstart : GetStartTS a ≤ GetStartTS a1 := by
        by_cases hj : j = st.applySpanIdx
        · subst hj; rw [ha] at ha1; cases ha1; exact le_refl _
        · exact pairwise_of_getElem_some hsa ha ha1 (by omega)
      have : SpanLeftOf b a1 = true := (spanLeftOf_iff b a1).2 ⟨e, hbe, le_trans hle hstart⟩
      rw [this] at hnl; cases hnl
  · -- the apply span is left of the base span, hence of all later base spans
    by_cases hold : i < st.baseSpanIdx ∨ j < st.applySpanIdx
    · exact hinv i j b1 a1 ov hb1 ha1 hov hold
    · exfalso
      have hj : j = st.applySpanIdx := by omega
      subst hj
      rw [ha] at ha1; cases ha1
      obtain ⟨f, haf, hle⟩ := (spanRightOf_iff b a).1 hr
      have hstart : GetStartTS b ≤ GetStartTS b1 := by
        by_cases hi : i = st.baseSpanIdx
        · subst hi; rw [hb] at hb1; cases hb1; exact le_refl _
        · exact pairwise_of_getElem_some hsb hb hb1 (by omega)
      have : SpanRightOf b1 a = true := (spanRightOf_iff b1 a).2 ⟨f, haf, le_trans hle hstart⟩
      rw [this] at hnr; cases hnr
  · -- overlap, base span passed: it ends no later than the apply span
    by_cases hold : i < st.baseSpanIdx ∨ j < st.applySpanIdx
    · exact List.mem_append_left _ (hinv i j b1 a1 ov hb1 ha1 hov hold)
    · have hi : i = st.baseSpanIdx := by omega
      subst hi
      rw [hb] at hb1; cases hb1
      by_cases hj : j = st.applySpanIdx
      · subst hj; rw [ha] at ha1; cases ha1
        rw [hov0] at hov; cases hov
        exact List.mem_append_right _ (List.mem_singleton_self _)
      · exfalso
        have hchain : SpanLeftOf a a1 = true := pairwise_of_getElem_some hla ha ha1 (by omega)
        obtain ⟨f, haf, hle⟩ := (spanLeftOf_iff a a1).1 hchain
        obtain ⟨e, hbe, hef⟩ := endsAtSameTime_overlap_true b a ov0 hov0 he f haf
        have : SpanLeftOf b a1 = true := (spanLeftOf_iff b a1).2 ⟨e, hbe, le_trans hef hle⟩
        rw [this] at hnl; cases hnl
  · -- overlap, apply span passed: it ends before the base span does
    by_cases hold : i < st.baseSpanIdx ∨ j < st.applySpanIdx
    · exact List.mem_append_left _ (hinv i j b1 a1 ov hb1 ha1 hov hold)
    · have hj : j = st.applySpanIdx := by omega
      subst hj
      rw [ha] at ha1; cases ha1
      by_cases hi : i = st.baseSpanIdx
      · subst hi; rw [hb] at hb1; cases hb1
        rw [hov0] at hov; cases hov
        exact List.mem_append_right _ (List.mem_singleton_self _)
      · exfalso
        have hchain : SpanLeftOf b b1 = true := pairwise_of_getElem_some hlb hb hb1 (by omega)
        obtain ⟨e, hbe, hle⟩ := (spanLeftOf_iff b b1).1 hchain
        obtain ⟨f, haf, hfe⟩ := endsAtSameTime_overlap_false b a ov0 hov0 he e hbe
        have : SpanRightOf b1 a = true :=
          (spanRightOf_iff b1 a).2 ⟨f, haf, le_trans (le_of_lt hfe) hle⟩
        rw [this] at hnr; cases hnr

/-- Sweep of two sequences, each sorted by start with every span left of every
later one: the sweep returns a list that holds the overlap of every
overlapping pair. -/
theorem getSpanOverlaps_collects (baseSpans applySpans : List (RecSpan M))
    (hsb : SortedByStart baseSpans) (hsa : SortedByStart applySpans)
    (hlb : LeftOfLater baseSpans) (hla : LeftOfLater applySpans) :
    ∃ result, GetSpanOverlaps baseSpans applySpans = .ok result ∧
      ∀ (i j : Nat) (b a ov : RecSpan M), baseSpans[i]? = some b → applySpans[j]? = some a →
        SpanOverlap b a = some ov → ov ∈ result := by
  obtain ⟨st1, hres, hinv, hc⟩ := getSpanOverlaps_invariant baseSpans applySpans
    (Collected baseSpans applySpans)
    (collected_preserved baseSpans applySpans hsb hsa hlb hla)
    (by intro i j b a ov _ _ _ hlt; simp at hlt)
  refine ⟨st1.overlaps, hres, ?_⟩
  intro i j b a ov hb ha hov
  apply hinv i j b a ov hb ha hov
  obtain ⟨hi, -⟩ := List.getElem?_eq_some.1 hb
  obtain ⟨hj, -⟩ := List.getElem?_eq_some.1 ha
  have hc1 : ¬ (st1.baseSpanIdx < baseSpans.length ∧ st1.applySpanIdx < applySpans.length) := by
    intro h
    rw [(sweepCond_iff baseSpans applySpans st1).2 h] at hc
    cases hc
  omega

/-- In a sorted sequence of valid spans without overlaps, in which no
zero-length span follows a longer span with the same start, every span is left
of every later one. -/
theorem leftOfLater_of_noOverlap (spans : List (RecSpan M)) (hv : AllValid spans)
    (hs : SortedByStart spans) (hn : NoOverlapWithin spans) (hz : ZeroLengthFirst spans) :
    LeftOfLater spans := by
  unfold LeftOfLater
  refine List.Pairwise.imp_of_mem ?_ (hs.and (hn.and hz))
  intro x y hx hy hxy
  obtain ⟨hle, hno, hzero⟩ := hxy
  rcases (hasOverlap_eq_false_iff x y).1 hno with hl | hr
  · exact hl
  · obtain ⟨f, hyf, hfx⟩ := (spanRightOf_iff x y).1 hr
    have hvy := hv y hy
    simp only [IsValid, hyf, decide_eq_true_eq] at hvy
    have hsame : StartsAtSameTime x y = true := by
      simp only [StartsAtSameTime, decide_eq_true_eq]; omega
    have hyz : IsZeroLength y = true := by
      simp only [IsZeroLength, hyf, decide_eq_true_eq]; omega
    have hxz := hzero hsame hyz
    unfold IsZeroLength at hxz
    cases hxe : GetEndTS x with
    | none => simp [hxe] at hxz
    | some e =>
      simp only [hxe, decide_eq_true_eq] at hxz
      exact (spanLeftOf_iff x y).2 ⟨e, hxe, by omega⟩

end Complete

/-! ## Completeness of the sweep -/

/-- C1, as stated, fails for base `[{5,10},{5,5}]` and apply `[{0,7}]`: both
sequences hold valid spans, are sorted by start and have no overlap within,
`{5,5}` overlaps `{0,7}`, and the sweep returns `[{5,7}]`, which holds no span
with the start and end of the overlap `{5,5}`. -/
theorem getSpanOverlaps_misses_zero_length_after_tie :
    AllValid [closedSpan 5 10, closedSpan 5 5] ∧ AllValid [closedSpan 0 7] ∧
      SortedByStart [closedSpan 5 10, closedSpan 5 5] ∧ SortedByStart [closedSpan 0 7] ∧
      NoOverlapWithin [closedSpan 5 10, closedSpan 5 5] ∧ NoOverlapWithin [closedSpan 0 7] ∧
      [closedSpan 5 10, closedSpan 5 5][1]? = some (closedSpan 5 5) ∧
      [closedSpan 0 7][0]? = some (closedSpan 0 7) ∧
      HasOverlap (closedSpan 5 5) (closedSpan 0 7) = true ∧
      GetSpanOverlaps [closedSpan 5 10, closedSpan 5 5] [closedSpan 0 7]
        = .ok [closedSpan 5 7] ∧
      ¬ ∃ result ov,
        GetSpanOverlaps [closedSpan 5 10, closedSpan 5 5] [closedSpan 0 7] = .ok result ∧
        SpanOverlap (closedSpan 5 5) (closedSpan 0 7) = some ov ∧
        ∃ r ∈ result, GetStartTS r = GetStartTS ov ∧ GetEndTS r = GetEndTS ov := by
  refine ⟨by simp [AllValid, IsValid, closedSpan, GetEndTS, GetStartTS],
    by simp [AllValid, IsValid, closedSpan, GetEndTS, GetStartTS],
    by unfold SortedByStart; decide, by unfold SortedByStart; decide,
    by unfold NoOverlapWithin; decide, by unfold NoOverlapWithin; decide,
    rfl, rfl, by decide, rfl, ?_⟩
  rintro ⟨result, ov, hres, hov, r, hr, -, hend⟩
  have h1 : GetSpanOverlaps [closedSpan 5 10, closedSpan 5 5] [closedSpan 0 7]
      = .ok [closedSpan 5 7] := rfl
  have h2 : SpanOverlap (closedSpan 5 5) (closedSpan 0 7) = some (closedSpan 5 5) := rfl
  rw [h1] at hres
  rw [h2] at hov
  cases hres
  cases hov
  rw [List.mem_singleton] at hr
  subst hr
  exact absurd hend (by decide)

/-- C1, amended: for sequences of valid spans whose setters replace the field,
each sorted ascending by start, without overlap within, and with no
zero-length span after a longer span of the same start, the sweep returns a
result that, for every overlapping pair `base[i]`, `apply[j]`, holds a span with
the start and end of `SpanOverlap(base[i], apply[j])`. -/
theorem getSpanOverlaps_complete {M : Type} (baseSpans applySpans : List (RecSpan M))
    (hvb : AllValid baseSpans) (hva : AllValid applySpans)
    (hsb : SortedByStart baseSpans) (hsa : SortedByStart applySpans)
    (hnb : NoOverlapWithin baseSpans) (hna : NoOverlapWithin applySpans)
    (hzb : ZeroLengthFirst baseSpans) (hza : ZeroLengthFirst applySpans)
    (i j : Nat) (b a : RecSpan M)
    (hb : baseSpans[i]? = some b) (ha : applySpans[j]? = some a)
    (ho : HasOverlap b a = true) :
    ∃ result ov, GetSpanOverlaps baseSpans applySpans = .ok result ∧
      SpanOverlap b a = some ov ∧
      ∃ r ∈ result, GetStartTS r = GetStartTS ov ∧ GetEndTS r = GetEndTS ov := by
  obtain ⟨result, hres, hall⟩ := getSpanOverlaps_collects baseSpans applySpans hsb hsa
    (leftOfLater_of_noOverlap baseSpans hvb hsb hnb hzb)
    (leftOfLater_of_noOverlap applySpans hva hsa hna hza)
  have hov := spanOverlap_of_hasOverlap b a ho
  exact ⟨result, _, hres, hov, _, hall i j b a _ hb ha hov, rfl, rfl⟩

/-- Witness of the amended C1: base `[{0,10},{20,30}]`, apply `[{5,25}]` and
the pair `base[1]`, `apply[0]`. -/
theorem getSpanOverlaps_complete_witness :
    AllValid [closedSpan 0 10, closedSpan 20 30] ∧ AllValid [closedSpan 5 25] ∧
      SortedByStart [closedSpan 0 10, closedSpan 20 30] ∧ SortedByStart [closedSpan 5 25] ∧
      NoOverlapWithin [closedSpan 0 10, closedSpan 20 30] ∧ NoOverlapWithin [closedSpan 5 25] ∧
      ZeroLengthFirst [closedSpan 0 10, closedSpan 20 30] ∧ ZeroLengthFirst [closedSpan 5 25] ∧
      HasOverlap (closedSpan 20 30) (closedSpan 5 25) = true ∧
      GetSpanOverlaps [closedSpan 0 10, closedSpan 20 30] [closedSpan 5 25]
        = .ok [closedSpan 5 10, closedSpan 20 25] ∧
      ∃ result ov,
        GetSpanOverlaps [closedSpan 0 10, closedSpan 20 30] [closedSpan 5 25] = .ok result ∧
        SpanOverlap (closedSpan 20 30) (closedSpan 5 25) = some ov ∧
        ∃ r ∈ result, GetStartTS r = GetStartTS ov ∧ GetEndTS r = GetEndTS ov :=
  have hvb : AllValid [closedSpan 0 10, closedSpan 20 30] := by
    simp [AllValid, IsValid, closedSpan, GetEndTS, GetStartTS]
  have hva : AllValid [closedSpan 5 25] := by
    simp [AllValid, IsValid, closedSpan, GetEndTS, GetStartTS]
  have hsb : SortedByStart [closedSpan 0 10, closedSpan 20 30] := by
    unfold SortedByStart; decide
  have hsa : SortedByStart [closedSpan 5 25] := by unfold SortedByStart; decide
  have hnb : NoOverlapWithin [closedSpan 0 10, closedSpan 20 30] := by
    unfold NoOverlapWithin; decide
  have hna : NoOverlapWithin [closedSpan 5 25] := by unfold NoOverlapWithin; decide
  have hzb : ZeroLengthFirst [closedSpan 0 10, closedSpan 20 30] := by
    unfold ZeroLengthFirst; decide
  have hza : ZeroLengthFirst [closedSpan 5 25] := by unfold ZeroLengthFirst; decide
  ⟨hvb, hva, hsb, hsa, hnb, hna, hzb, hza, by decide, rfl,
    getSpanOverlaps_complete [closedSpan 0 10, closedSpan 20 30] [closedSpan 5 25]
      hvb hva hsb hsa hnb hna hzb hza 1 0 (closedSpan 20 30) (closedSpan 5 25) rfl rfl
      (by decide)⟩

/-! ## The sample spans of `main` -/

/-- C2: with the record types as written, the sweep over the two spans built in
`main` returns one span, the unchanged copy of the usage span: its start is
100 and its end 200, not 150 and 200. -/
theorem main_overlaps_is_unchanged_usage :
    GetSpanOverlaps [GoSpan.usage mainUsage] [GoSpan.property mainProperty]
        = .ok [GoSpan.usage mainUsage] ∧
      GetStartTS (GoSpan.usage mainUsage) = 100 ∧
      GetEndTS (GoSpan.usage mainUsage) = some 200 := by
  refine ⟨?_, rfl, rfl⟩
  rfl

/-! ## Singleton sweep -/

/-- C3: for spans whose setters replace the field, the sweep over `[A]` and
`[B]` is `[SpanOverlap(A,B)]` when `HasOverlap(A,B)` is true and the empty
sequence when it is false. -/
theorem getSpanOverlaps_singleton_rec {M : Type} (A B : RecSpan M) :
    (HasOverlap A B = true ∧
        ∃ ov, SpanOverlap A B = some ov ∧ GetSpanOverlaps [A] [B] = .ok [ov]) ∨
      (HasOverlap A B = false ∧ SpanOverlap A B = none ∧ GetSpanOverlaps [A] [B] = .ok []) := by
  cases ho : HasOverlap A B
  · right
    refine ⟨rfl, spanOverlap_of_not_hasOverlap A B ho, ?_⟩
    rw [getSpanOverlaps_singleton, spanOverlap_of_not_hasOverlap A B ho]
    rfl
  · left
    refine ⟨rfl, _, spanOverlap_of_hasOverlap A B ho, ?_⟩
    rw [getSpanOverlaps_singleton, spanOverlap_of_hasOverlap A B ho]
    rfl

/-! ## Merge and difference -/

/-- C4: `SpanMerge` returns the nil span for every pair of spans, whether the
setters replace the field or are the value-receiver setters of the record
types; among the pairs are the overlapping `{100,200}`, `{150,250}` and the
adjacent `{100,200}`, `{200,300}`. -/
theorem spanMerge_always_absent :
    (∀ baseSpan applySpan : RecSpan Unit, SpanMerge baseSpan applySpan = none) ∧
      (∀ baseSpan applySpan : GoSpan, SpanMerge baseSpan applySpan = none) ∧
      HasOverlap (closedSpan 100 200) (closedSpan 150 250) = true ∧
      SpanMerge (closedSpan 100 200) (closedSpan 150 250) = none ∧
      Adjacent (closedSpan 100 200) (closedSpan 200 300) = true ∧
      SpanMerge (closedSpan 100 200) (closedSpan 200 300) = none ∧
      HasOverlap (usageSpan 100 (some 200)) (propertySpan 150 (some 250)) = true ∧
      SpanMerge (usageSpan 100 (some 200)) (propertySpan 150 (some 250)) = none := by
  exact ⟨fun a b => spanMerge_eq_none a b, fun a b => spanMerge_eq_none a b,
    by decide, rfl, by decide, rfl, by decide, rfl⟩

/-- C5: on spans that do not overlap, `SpanDiff` stops with a method call on
the nil overlap, under either kind of setter; `{100,200}` and `{300,400}` is
such a pair. -/
theorem spanDiff_faults_without_overlap :
    (∀ baseSpan applySpan : RecSpan Unit,
        HasOverlap baseSpan applySpan = true ∨
          SpanDiff baseSpan applySpan = .error .nilDereference) ∧
      (∀ baseSpan applySpan : GoSpan,
        HasOverlap baseSpan applySpan = true ∨
          SpanDiff baseSpan applySpan = .error .nilDereference) ∧
      HasOverlap (closedSpan 100 200) (closedSpan 300 400) = false ∧
      SpanDiff (closedSpan 100 200) (closedSpan 300 400) = .error .nilDereference ∧
      HasOverlap (usageSpan 100 (some 200)) (propertySpan 300 (some 400)) = false ∧
      SpanDiff (usageSpan 100 (some 200)) (propertySpan 300 (some 400))
        = .error .nilDereference := by
  exact ⟨fun a b => spanDiff_of_not_hasOverlap a b, fun a b => spanDiff_of_not_hasOverlap a b,
    by decide, rfl, by decide, rfl⟩

/-- C6: the open spans starting at 100 and at 50 overlap, and `SpanDiff`
returns `hasOverlap = false` for them, under either kind of setter. -/
theorem spanDiff_open_overlap_reports_false :
    HasOverlap (openSpan 100) (openSpan 50) = true ∧
      SpanOverlap (openSpan 100) (openSpan 50) = some (openSpan 100) ∧
      SpanDiff (openSpan 100) (openSpan 50) = .ok (none, none, false) ∧
      HasOverlap (usageSpan 100 none) (propertySpan 50 none) = true ∧
      SpanDiff (usageSpan 100 none) (propertySpan 50 none) = .ok (none, none, false) := by
  exact ⟨by decide, rfl, rfl, by decide, rfl⟩

/-- C7: `SpanDiff` never returns a left or a right span, under either kind of
setter; for base `{100,300}` and apply `{150,200}`, where base starts before
the overlap `{150,200}` and the overlap ends before base, it returns
`(nil, nil, true)`. -/
theorem spanDiff_never_returns_diffs :
    (∀ baseSpan applySpan : RecSpan Unit,
        match SpanDiff baseSpan applySpan with
        | .ok r => r.1 = none ∧ r.2.1 = none
        | .error _ => True) ∧
      (∀ baseSpan applySpan : GoSpan,
        match SpanDiff baseSpan applySpan with
        | .ok r => r.1 = none ∧ r.2.1 = none
        | .error _ => True) ∧
      SpanOverlap (closedSpan 100 300) (closedSpan 150 200) = some (closedSpan 150 200) ∧
      StartsBefore (closedSpan 100 300) (closedSpan 150 200) = true ∧
      EndsBefore (closedSpan 150 200) (closedSpan 100 300) = true ∧
      SpanDiff (closedSpan 100 300) (closedSpan 150 200) = .ok (none, none, true) ∧
      SpanDiff (usageSpan 100 (some 300)) (propertySpan 150 (some 200))
        = .ok (none, none, true) := by
  refine ⟨?_, ?_, rfl, by decide, by decide, rfl, rfl⟩
  · intro baseSpan applySpan
    cases h : SpanDiff baseSpan applySpan with
    | error e => trivial
    | ok r => exact spanDiff_ok_results baseSpan applySpan r h
  · intro baseSpan applySpan
    cases h : SpanDiff baseSpan applySpan with
    | error e => trivial
    | ok r => exact spanDiff_ok_results baseSpan applySpan r h

/-! ## Overlap -/

/-- C8: for spans whose setters replace the field, every timestamp contained
in a present `SpanOverlap(a,b)` is contained in `a` and in `b`. -/
theorem spanOverlap_contained {M : Type} (a b ov : RecSpan M) (t : Int)
    (hov : SpanOverlap a b = some ov) (ht : SpanContainsTime ov t = true) :
    SpanContainsTime a t = true ∧ SpanContainsTime b t = true := by
  have ho : HasOverlap a b = true := by
    cases h : HasOverlap a b
    · rw [spanOverlap_of_not_hasOverlap a b h] at hov; cases hov
    · rfl
  rw [spanOverlap_of_hasOverlap a b ho] at hov
  cases hov
  rw [spanContainsTime_iff] at ht
  simp only [GetStartTS, GetEndTS, SetStartTS, SetEndTS, Copy] at ht
  obtain ⟨hs, he⟩ := ht
  rw [maxStartTS_le_iff] at hs
  rw [le_minEndTS_iff] at he
  exact ⟨(spanContainsTime_iff a t).2 ⟨hs.1, he.1⟩, (spanContainsTime_iff b t).2 ⟨hs.2, he.2⟩⟩

/-- Witness of C8 at `{100,200}`, `{150,250}` and the timestamp 170. -/
theorem spanOverlap_contained_witness :
    SpanOverlap (closedSpan 100 200) (closedSpan 150 250) = some (closedSpan 150 200) ∧
      SpanContainsTime (closedSpan 150 200) 170 = true ∧
      SpanContainsTime (closedSpan 100 200) 170 = true ∧
      SpanContainsTime (closedSpan 150 250) 170 = true :=
  ⟨rfl, by decide,
    spanOverlap_contained (closedSpan 100 200) (closedSpan 150 250) (closedSpan 150 200) 170
      rfl (by decide)⟩

/-- C9, as stated, fails at the valid zero-length span `{5,5}`: it does not
overlap itself. -/
theorem spanOverlap_self_zero_length_absent :
    IsValid (closedSpan 5 5) = true ∧ IsZeroLength (closedSpan 5 5) = true ∧
      HasOverlap (closedSpan 5 5) (closedSpan 5 5) = false ∧
      SpanOverlap (closedSpan 5 5) (closedSpan 5 5) = none ∧
      SpanOverlap (usageSpan 5 (some 5)) (usageSpan 5 (some 5)) = none := by
  exact ⟨by decide, by decide, by decide, rfl, rfl⟩

/-- A valid span that is not zero-length overlaps itself, for every
implementation of the interface. -/
theorem hasOverlap_self {S : Type} [Span S] (s : S) (hv : IsValid s = true)
    (hz : IsZeroLength s = false) : HasOverlap s s = true := by
  rw [hasOverlap_eq_true_iff, spanRightOf_eq_spanLeftOf_swap, and_self]
  unfold IsValid at hv
  unfold IsZeroLength at hz
  unfold SpanLeftOf
  cases he : GetEndTS s with
  | none => rfl
  | some e =>
    simp only [he, decide_eq_true_eq, decide_eq_false_iff_not] at hv hz ⊢
    omega

/-- A zero-length span does not overlap itself, for every implementation of
the interface. -/
theorem spanOverlap_self_of_zero_length {S : Type} [Span S] (s : S)
    (hz : IsZeroLength s = true) : SpanOverlap s s = none := by
  apply spanOverlap_of_not_hasOverlap
  rw [hasOverlap_eq_false_iff]
  left
  unfold IsZeroLength at hz
  unfold SpanLeftOf
  cases he : GetEndTS s with
  | none => simp [he] at hz
  | some e =>
    simp only [he, decide_eq_true_eq] at hz ⊢
    omega

/-- C9, amended: for every valid span that is not zero-length, `SpanOverlap` of
the span with itself is present, for every implementation of the interface,
and has the start and the end of the span, both for spans whose setters
replace the field (`a`) and for the record types of the repository (`g`); for
every zero-length span it is absent. -/
theorem spanOverlap_self {M S : Type} [Span S] (a : RecSpan M) (g : GoSpan) (s : S) :
    (IsValid a = true → IsZeroLength a = false →
        ∃ ov, SpanOverlap a a = some ov ∧ GetStartTS ov = GetStartTS a ∧
          GetEndTS ov = GetEndTS a) ∧
      (IsValid g = true → IsZeroLength g = false →
        ∃ ov, SpanOverlap g g = some ov ∧ GetStartTS ov = GetStartTS g ∧
          GetEndTS ov = GetEndTS g) ∧
      (IsValid s = true → IsZeroLength s = false → ∃ ov, SpanOverlap s s = some ov) ∧
      (IsZeroLength s = true → SpanOverlap s s = none) ∧
      (IsZeroLength a = true → SpanOverlap a a = none) ∧
      (IsZeroLength g = true → SpanOverlap g g = none) := by
  refine ⟨?_, ?_, ?_, spanOverlap_self_of_zero_length s, spanOverlap_self_of_zero_length a,
    spanOverlap_self_of_zero_length g⟩
  · intro hv hz
    refine ⟨_, spanOverlap_of_hasOverlap a a (hasOverlap_self a hv hz), ?_, ?_⟩
    · simp [GetStartTS, SetEndTS, SetStartTS, MaxStartTS]
    · rcases a with ⟨sa, ea, ma⟩
      cases ea <;> simp [GetEndTS, SetEndTS, MinEndTS]
  · intro hv hz
    refine ⟨_, spanOverlap_of_hasOverlap g g (hasOverlap_self g hv hz), ?_, ?_⟩
    · cases g <;> rfl
    · cases g <;> rfl
  · intro hv hz
    exact ⟨_, spanOverlap_of_hasOverlap s s (hasOverlap_self s hv hz)⟩

/-- Witness of the amended C9 at `{100,200}`, as a span whose setters replace
the field and as a `UsageSpan`, and at the zero-length span `{5,5}`. -/
theorem spanOverlap_self_witness :
    IsValid (closedSpan 100 200) = true ∧ IsZeroLength (closedSpan 100 200) = false ∧
      (∃ ov, SpanOverlap (closedSpan 100 200) (closedSpan 100 200) = some ov ∧
        GetStartTS ov = GetStartTS (closedSpan 100 200) ∧
        GetEndTS ov = GetEndTS (closedSpan 100 200)) ∧
      IsValid (usageSpan 100 (some 200)) = true ∧
      IsZeroLength (usageSpan 100 (some 200)) = false ∧
      (∃ ov, SpanOverlap (usageSpan 100 (some 200)) (usageSpan 100 (some 200)) = some ov ∧
        GetStartTS ov = GetStartTS (usageSpan 100 (some 200)) ∧
        GetEndTS ov = GetEndTS (usageSpan 100 (some 200))) ∧
      IsZeroLength (closedSpan 5 5) = true ∧
      SpanOverlap (closedSpan 5 5) (closedSpan 5 5) = none :=
  ⟨by decide, by decide,
    (spanOverlap_self (closedSpan 100 200) (usageSpan 100 (some 200)) (closedSpan 5 5)).1
      (by decide) (by decide),
    by decide, by decide,
    (spanOverlap_self (closedSpan 100 200) (usageSpan 100 (some 200)) (closedSpan 5 5)).2.1
      (by decide) (by decide),
    by decide,
    (spanOverlap_self (closedSpan 100 200) (usageSpan 100 (some 200))
      (closedSpan 5 5)).2.2.2.1 (by decide)⟩

/-- C10: `HasOverlap` is symmetric, for every implementation of the interface
and all spans, valid or not, open or closed. -/
theorem hasOverlap_symm {S : Type} [Span S] (a b : S) : HasOverlap a b = HasOverlap b a := by
  unfold HasOverlap
  rw [spanRightOf_eq_spanLeftOf_swap a b, spanRightOf_eq_spanLeftOf_swap b a, Bool.or_comm]

/-! ## Length -/

/-- C14, as stated, fails at the valid closed span from -1 to the largest
`int64`: the 64-bit subtraction wraps and `Length` is the smallest `int64`. -/
theorem length_negative_on_wide_span :
    isInt64 (-1) ∧ isInt64 9223372036854775807 ∧
      IsValid (closedSpan (-1) 9223372036854775807) = true ∧
      IsClosed (closedSpan (-1) 9223372036854775807) = true ∧
      Length (closedSpan (-1) 9223372036854775807) = some (-9223372036854775808) ∧
      ¬ ∃ n, Length (closedSpan (-1) 9223372036854775807) = some n ∧ 0 ≤ n := by
  refine ⟨by decide, by decide, by decide, by decide, by decide, ?_⟩
  rintro ⟨n, hn, h0⟩
  have h : Length (closedSpan (-1) 9223372036854775807) = some (-9223372036854775808) := by
    decide
  rw [h] at hn
  cases hn
  omega

/-- C14, amended: for every valid closed span whose end minus start is below
`2^63`, `Length` is present, equals end minus start and is not negative; for
every open span `Length` is absent; for every valid closed span with `int64`
timestamps whose end minus start is `2^63` or more, `Length` is present and
negative: it is end minus start minus `2^64`. -/
theorem length_nonneg {S : Type} [Span S] (s : S) (hv : IsValid s = true) :
    (∀ e, GetEndTS s = some e → e - GetStartTS s < 2 ^ 63 →
        Length s = some (e - GetStartTS s) ∧ 0 ≤ e - GetStartTS s) ∧
      (IsOpen s = true → Length s = none) ∧
      (∀ e, GetEndTS s = some e → isInt64 (GetStartTS s) → isInt64 e →
        2 ^ 63 ≤ e - GetStartTS s →
        Length s = some (e - GetStartTS s - 2 ^ 64) ∧ e - GetStartTS s - 2 ^ 64 < 0) := by
  refine ⟨?_, ?_, ?_⟩
  · intro e he hlt
    simp only [IsValid, he, decide_eq_true_eq] at hv
    have h0 : 0 ≤ e - GetStartTS s := by omega
    refine ⟨?_, h0⟩
    simp only [Length, he, wrapInt64, Option.some.injEq]
    omega
  · intro ho
    unfold IsOpen at ho
    unfold Length
    cases he : GetEndTS s with
    | none => rfl
    | some e => simp [he] at ho
  · intro e he hs hee hwide
    unfold isInt64 at hs hee
    refine ⟨?_, by omega⟩
    simp only [Length, he, wrapInt64, Option.some.injEq]
    omega

/-- Witness of the amended C14 at `{100,300}`, of length 200, at the open span
from 100, and at the span from -1 to the largest `int64`. -/
theorem length_nonneg_witness :
    IsValid (closedSpan 100 300) = true ∧
      Length (closedSpan 100 300) = some (300 - 100) ∧ (0 : Int) ≤ 300 - 100 ∧
      Length (openSpan 100) = none ∧
      IsValid (closedSpan (-1) 9223372036854775807) = true ∧
      Length (closedSpan (-1) 9223372036854775807)
        = some (9223372036854775807 - GetStartTS (closedSpan (-1) 9223372036854775807)
            - 2 ^ 64) :=
  ⟨by decide,
    ((length_nonneg (closedSpan 100 300) (by decide)).1 300 rfl (by decide)).1,
    ((length_nonneg (closedSpan 100 300) (by decide)).1 300 rfl (by decide)).2,
    (length_nonneg (openSpan 100) (by decide)).2.1 (by decide),
    by decide,
    ((length_nonneg (closedSpan (-1) 9223372036854775807) (by decide)).2.2
      9223372036854775807 rfl (by decide) (by decide) (by decide)).1⟩

/-! ## Scalar helpers -/

/-- C16: `MinEndTS` is absent iff both ends are absent, is the finite end when
exactly one is absent and the smaller when both are finite; `MaxEndTS` is
absent iff at least one end is absent and is the larger when both are
finite. -/
theorem minEndTS_maxEndTS_spec (e1 e2 : Option Int) (x y : Int) :
    (MinEndTS e1 e2 = none ↔ e1 = none ∧ e2 = none) ∧
      MinEndTS (some x) none = some x ∧
      MinEndTS none (some y) = some y ∧
      MinEndTS (some x) (some y) = some (min x y) ∧
      (MaxEndTS e1 e2 = none ↔ e1 = none ∨ e2 = none) ∧
      MaxEndTS (some x) (some y) = some (max x y) := by
  refine ⟨?_, rfl, rfl, ?_, ?_, ?_⟩
  · cases e1 <;> cases e2 <;> simp [MinEndTS]
    split <;> simp
  · simp only [MinEndTS]
    split
    · rw [min_eq_left (by assumption)]
    · rw [min_eq_right (by omega)]
  · cases e1 <;> cases e2 <;> simp [MaxEndTS]
    split <;> simp
  · simp only [MaxEndTS]
    split
    · rw [max_eq_left (by assumption)]
    · rw [max_eq_right (by omega)]

/-! ## Containment of the bounds -/

/-- C17: a valid span contains its start, and a valid closed span contains its
end; for every implementation of the interface. -/
theorem spanContainsTime_bounds {S : Type} [Span S] (s : S) (hv : IsValid s = true) :
    SpanContainsTime s (GetStartTS s) = true ∧
      ∀ e, GetEndTS s = some e → SpanContainsTime s e = true := by
  unfold IsValid at hv
  constructor
  · rw [spanContainsTime_iff]
    refine ⟨le_refl _, ?_⟩
    intro e he
    simp only [he, decide_eq_true_eq] at hv
    omega
  · intro e he
    rw [spanContainsTime_iff]
    simp only [he, decide_eq_true_eq] at hv
    refine ⟨by omega, ?_⟩
    intro e1 he1
    rw [he] at he1
    cases he1
    exact le_refl _

/-- Witness of C17 at `{100,200}`. -/
theorem spanContainsTime_bounds_witness :
    IsValid (closedSpan 100 200) = true ∧
      SpanContainsTime (closedSpan 100 200) 100 = true ∧
      SpanContainsTime (closedSpan 100 200) 200 = true :=
  ⟨by decide, (spanContainsTime_bounds (closedSpan 100 200) (by decide)).1,
    (spanContainsTime_bounds (closedSpan 100 200) (by decide)).2 200 rfl⟩

/-! ## Order of the ends -/

/-- C20: of `EndsBefore`, `EndsAtSameTime` and `EndsAfter` exactly one is true,
and `EndsBefore(a,b)` is `EndsAfter(b,a)`; for every implementation of the
interface and all spans. -/
theorem ends_trichotomy {S : Type} [Span S] (a b : S) :
    ((EndsBefore a b = true ∧ EndsAtSameTime a b = false ∧ EndsAfter a b = false) ∨
        (EndsBefore a b = false ∧ EndsAtSameTime a b = true ∧ EndsAfter a b = false) ∨
        (EndsBefore a b = false ∧ EndsAtSameTime a b = false ∧ EndsAfter a b = true)) ∧
      EndsBefore a b = EndsAfter b a := by
  unfold EndsBefore EndsAtSameTime EndsAfter
  cases GetEndTS a with
  | none => cases GetEndTS b <;> simp
  | some x =>
    cases GetEndTS b with
    | none => simp
    | some y =>
      simp only [decide_eq_true_eq, decide_eq_false_iff_not, gt_iff_lt, and_true]
      omega

/-! ## Adjacency -/

theorem maxStartTS_eq_max (x y : Int) : MaxStartTS x y = max x y := by
  unfold MaxStartTS
  split <;> omega

theorem minEndTS_some_some (x y : Int) : MinEndTS (some x) (some y) = some (min x y) := by
  simp only [MinEndTS]
  split
  · rw [min_eq_left (by assumption)]
  · rw [min_eq_right (by omega)]

/-- The value of `Adjacent` in terms of the ends and starts. -/
theorem adjacent_eq_true_iff {S : Type} [Span S] (a b : S) :
    Adjacent a b = true ↔
      MinEndTS (GetEndTS a) (GetEndTS b) = some (max (GetStartTS a) (GetStartTS b)) := by
  unfold Adjacent
  rw [maxStartTS_eq_max]
  cases MinEndTS (GetEndTS a) (GetEndTS b) with
  | none => simp
  | some e =>
    simp only [decide_eq_true_eq, Option.some.injEq]
    exact eq_comm

/-- For every implementation of the interface: if one of two valid spans is
closed and ends where the other starts, the two are adjacent. -/
theorem adjacent_of_end_eq_start {S : Type} [Span S] (a b : S) (hva : IsValid a = true)
    (hvb : IsValid b = true)
    (h : GetEndTS a = some (GetStartTS b) ∨ GetEndTS b = some (GetStartTS a)) :
    Adjacent a b = true := by
  unfold IsValid at hva hvb
  rw [adjacent_eq_true_iff]
  cases ha : GetEndTS a with
  | none =>
    cases hb : GetEndTS b with
    | none => simp [ha, hb] at h
    | some y =>
      simp only [ha, hb, decide_eq_true_eq, Option.some.injEq, reduceCtorEq, false_or] at hvb h
      simp only [MinEndTS, Option.some.injEq]
      omega
  | some x =>
    cases hb : GetEndTS b with
    | none =>
      simp only [ha, hb, decide_eq_true_eq, Option.some.injEq, reduceCtorEq, or_false] at hva h
      simp only [MinEndTS, Option.some.injEq]
      omega
    | some y =>
      simp only [ha, hb, decide_eq_true_eq, Option.some.injEq] at hva hvb h
      rw [minEndTS_some_some, Option.some.injEq]
      omega

/-- What `Adjacent` computes on valid spans, for every implementation of the
interface: one span ends where the other starts, or one of them is zero-length
and the other contains its timestamp. -/
theorem adjacent_iff {S : Type} [Span S] (a b : S) (hva : IsValid a = true)
    (hvb : IsValid b = true) :
    Adjacent a b = true ↔
      (GetEndTS a = some (GetStartTS b) ∨ GetEndTS b = some (GetStartTS a)) ∨
        (IsZeroLength b = true ∧ SpanContainsTime a (GetStartTS b) = true) ∨
        (IsZeroLength a = true ∧ SpanContainsTime b (GetStartTS a) = true) := by
  unfold IsValid at hva hvb
  rw [spanContainsTime_iff, spanContainsTime_iff, adjacent_eq_true_iff]
  unfold IsZeroLength
  cases ha : GetEndTS a with
  | none =>
    cases hb : GetEndTS b with
    | none => simp [MinEndTS]
    | some y =>
      simp only [hb, decide_eq_true_eq] at hvb
      simp only [MinEndTS, decide_eq_true_eq, Option.some.injEq, reduceCtorEq,
        IsEmpty.forall_iff, implies_true, forall_eq', false_and, and_true, false_or, or_false]
      omega
  | some x =>
    simp only [ha, decide_eq_true_eq] at hva
    cases hb : GetEndTS b with
    | none =>
      simp only [MinEndTS, decide_eq_true_eq, Option.some.injEq, reduceCtorEq,
        IsEmpty.forall_iff, implies_true, forall_eq', false_and, and_true, false_or, or_false]
      omega
    | some y =>
      simp only [hb, decide_eq_true_eq] at hvb
      rw [minEndTS_some_some]
      simp only [decide_eq_true_eq, Option.some.injEq, forall_eq']
      omega

/-- C15: the valid spans `{0,10}` and `{5,5}` are `Adjacent` although neither
ends where the other starts: `MinEndTS` picks the end of the zero-length span,
not the end of the span that starts earlier.  The same holds with the record
types of the repository. -/
theorem adjacent_zero_length_inside :
    IsValid (closedSpan 0 10) = true ∧ IsValid (closedSpan 5 5) = true ∧
      Adjacent (closedSpan 0 10) (closedSpan 5 5) = true ∧
      GetEndTS (closedSpan 0 10) ≠ some (GetStartTS (closedSpan 5 5)) ∧
      GetEndTS (closedSpan 5 5) ≠ some (GetStartTS (closedSpan 0 10)) ∧
      Adjacent (usageSpan 0 (some 10)) (propertySpan 5 (some 5)) = true ∧
      GetEndTS (usageSpan 0 (some 10)) ≠ some (GetStartTS (propertySpan 5 (some 5))) ∧
      GetEndTS (propertySpan 5 (some 5)) ≠ some (GetStartTS (usageSpan 0 (some 10))) := by
  exact ⟨by decide, by decide, by decide, by decide, by decide, by decide, by decide,
    by decide⟩

/-! ## Termination of the sweep -/

/-- For all sequences of spans and every implementation of the interface, the
loop of `GetSpanOverlaps`, given `len(base) + len(apply)` iterations, returns
without a fault, with both indices within the lengths and the loop condition
false; every pass through the body with the loop condition true returns
without a fault and moves exactly one of the two indices forward by one. -/
theorem getSpanOverlaps_terminates {S : Type} [Span S] (baseSpans applySpans : List S) :
    (∃ st, sweepLoop baseSpans applySpans (baseSpans.length + applySpans.length) ⟨0, 0, []⟩
          = .ok st ∧
        GetSpanOverlaps baseSpans applySpans = .ok st.overlaps ∧
        sweepCond baseSpans applySpans st = false ∧
        st.baseSpanIdx ≤ baseSpans.length ∧ st.applySpanIdx ≤ applySpans.length) ∧
      ∀ st, sweepCond baseSpans applySpans st = true →
        ∃ st1, sweepBody baseSpans applySpans st = .ok st1 ∧
          ((st1.baseSpanIdx = st.baseSpanIdx + 1 ∧ st1.applySpanIdx = st.applySpanIdx) ∨
            (st1.baseSpanIdx = st.baseSpanIdx ∧ st1.applySpanIdx = st.applySpanIdx + 1)) := by
  have hbody : ∀ st, sweepCond baseSpans applySpans st = true →
      ∃ st1, sweepBody baseSpans applySpans st = .ok st1 ∧
        ((st1.baseSpanIdx = st.baseSpanIdx + 1 ∧ st1.applySpanIdx = st.applySpanIdx) ∨
          (st1.baseSpanIdx = st.baseSpanIdx ∧ st1.applySpanIdx = st.applySpanIdx + 1)) := by
    intro st hc
    obtain ⟨b, a, -, -, hcase⟩ := sweepBody_cases baseSpans applySpans st hc
    have hex : ∃ st1, sweepBody baseSpans applySpans st = .ok st1 := by
      rcases hcase with ⟨-, h1⟩ | ⟨-, -, h1⟩ | ⟨ov, -, -, -, h1⟩ | ⟨ov, -, -, -, h1⟩ <;>
        exact ⟨_, h1⟩
    obtain ⟨st1, hst1⟩ := hex
    exact ⟨st1, hst1, (sweepBody_advances baseSpans applySpans st st1 hc hst1).1⟩
  refine ⟨?_, hbody⟩
  obtain ⟨st, hrun, hinv, hc⟩ := sweepLoop_invariant baseSpans applySpans
    (fun st => st.baseSpanIdx ≤ baseSpans.length ∧ st.applySpanIdx ≤ applySpans.length)
    (by
      intro st st1 hc hinv hst1
      obtain ⟨hi, hj⟩ := (sweepCond_iff baseSpans applySpans st).1 hc
      rcases (sweepBody_advances baseSpans applySpans st st1 hc hst1).1 with
        ⟨h1, h2⟩ | ⟨h1, h2⟩ <;> constructor <;> omega)
    (baseSpans.length + applySpans.length) ⟨0, 0, []⟩ (by simp) (by simp)
  exact ⟨st, hrun, by simp [GetSpanOverlaps, hrun], hc, hinv.1, hinv.2⟩

/-! ## Termination of the sweep on slices that may hold nil -/

section NilFacts

variable {S : Type} [Span S]

theorem spanLeftOfIface_some (b a : S) :
    SpanLeftOfIface (some b) (some a) = .ok (SpanLeftOf b a) := by
  simp only [SpanLeftOfIface, SpanLeftOf, deref, bind, Except.bind]
  cases GetEndTS b <;> rfl

theorem spanRightOfIface_some (b a : S) :
    SpanRightOfIface (some b) (some a) = .ok (SpanRightOf b a) := by
  simp only [SpanRightOfIface, SpanRightOf, deref, bind, Except.bind]
  cases GetEndTS a <;> rfl

omit [Span S] in
theorem sweepCondIface_map_some (baseSpans applySpans : List S) (st : SweepState S) :
    sweepCondIface (baseSpans.map some) (applySpans.map some) st
      = sweepCond baseSpans applySpans st := by
  simp [sweepCondIface, sweepCond]

/-- On slices without nil the loop body is the loop body on the spans. -/
theorem sweepBodyIface_map_some (baseSpans applySpans : List S) (st : SweepState S) :
    sweepBodyIface (baseSpans.map some) (applySpans.map some) st
      = sweepBody baseSpans applySpans st := by
  unfold sweepBodyIface sweepBody index
  rw [List.getElem?_map, List.getElem?_map]
  cases baseSpans[st.baseSpanIdx]? with
  | none => rfl
  | some b =>
    cases applySpans[st.applySpanIdx]? with
    | none => rfl
    | some a =>
      simp only [Option.map_some', bind, Except.bind, spanLeftOfIface_some,
        spanRightOfIface_some, deref]

theorem sweepLoopIface_map_some (baseSpans applySpans : List S) :
    ∀ (fuel : Nat) (st : SweepState S),
      sweepLoopIface (baseSpans.map some) (applySpans.map some) fuel st
        = sweepLoop baseSpans applySpans fuel st := by
  intro fuel
  induction fuel with
  | zero =>
    intro st
    simp only [sweepLoopIface, sweepLoop, sweepCondIface_map_some]
  | succ n ih =>
    intro st
    simp only [sweepLoopIface, sweepLoop, sweepCondIface_map_some, sweepBodyIface_map_some]
    cases sweepCond baseSpans applySpans st
    · rfl
    · simp only [if_true]
      cases sweepBody baseSpans applySpans st with
      | error e => rfl
      | ok st1 => exact ih st1

/-- On slices without nil, `GetSpanOverlapsIface` is `GetSpanOverlaps` on the
spans. -/
theorem getSpanOverlapsIface_map_some (baseSpans applySpans : List S) :
    GetSpanOverlapsIface (baseSpans.map some) (applySpans.map some)
      = GetSpanOverlaps baseSpans applySpans := by
  unfold GetSpanOverlapsIface GetSpanOverlaps
  rw [sweepLoopIface_map_some, List.length_map, List.length_map]

omit [Span S] in
theorem eq_map_some_of_no_nil (l : List (Option S)) (h : ∀ x ∈ l, x ≠ none) :
    ∃ spans : List S, l = spans.map some := by
  induction l with
  | nil => exact ⟨[], rfl⟩
  | cons x l ih =>
    obtain ⟨spans, hspans⟩ := ih (fun y hy => h y (List.mem_cons_of_mem _ hy))
    cases x with
    | none => exact absurd rfl (h none (List.mem_cons_self _ _))
    | some v => exact ⟨v :: spans, by rw [hspans]; rfl⟩

end NilFacts

/-- C12, as stated, fails when a slice holds a nil element that the loop
reaches: for base `[nil]` and apply `[{0,10}]`, `SpanLeftOf` calls `GetEndTS` on
the nil base element and the sweep stops with a nil dereference, under either
kind of setter. -/
theorem getSpanOverlapsIface_faults_on_nil :
    GetSpanOverlapsIface [none] [some (closedSpan 0 10)] = .error .nilDereference ∧
      GetSpanOverlapsIface [some (closedSpan 0 10)] [none] = .error .nilDereference ∧
      GetSpanOverlapsIface [none] [some (propertySpan 0 (some 10))]
        = .error .nilDereference ∧
      ¬ ∃ result, GetSpanOverlapsIface [none] [some (closedSpan 0 10)] = .ok result := by
  refine ⟨rfl, rfl, rfl, ?_⟩
  rintro ⟨result, h⟩
  have h1 : GetSpanOverlapsIface [none] [some (closedSpan 0 10)]
      = .error .nilDereference := rfl
  rw [h1] at h
  cases h

/-- C12, amended: for all input slices without a nil element, with no
sortedness, validity or non-overlap assumption and for every implementation of
the interface, the loop of the sweep, given `len(base) + len(apply)`
iterations, returns without a fault, with both indices within the lengths and
the loop condition false; every pass through the body with the loop condition
true returns without a fault and moves exactly one of the two indices forward
by one. -/
theorem getSpanOverlapsIface_terminates {S : Type} [Span S]
    (baseSpans applySpans : List (Option S))
    (hb : ∀ x ∈ baseSpans, x ≠ none) (ha : ∀ x ∈ applySpans, x ≠ none) :
    (∃ st, sweepLoopIface baseSpans applySpans (baseSpans.length + applySpans.length)
          ⟨0, 0, []⟩ = .ok st ∧
        GetSpanOverlapsIface baseSpans applySpans = .ok st.overlaps ∧
        sweepCondIface baseSpans applySpans st = false ∧
        st.baseSpanIdx ≤ baseSpans.length ∧ st.applySpanIdx ≤ applySpans.length) ∧
      ∀ st, sweepCondIface baseSpans applySpans st = true →
        ∃ st1, sweepBodyIface baseSpans applySpans st = .ok st1 ∧
          ((st1.baseSpanIdx = st.baseSpanIdx + 1 ∧ st1.applySpanIdx = st.applySpanIdx) ∨
            (st1.baseSpanIdx = st.baseSpanIdx ∧ st1.applySpanIdx = st.applySpanIdx + 1)) := by
  obtain ⟨bs, rfl⟩ := eq_map_some_of_no_nil baseSpans hb
  obtain ⟨as, rfl⟩ := eq_map_some_of_no_nil applySpans ha
  obtain ⟨⟨st, hrun, hres, hc, hi, hj⟩, hbody⟩ := getSpanOverlaps_terminates bs as
  refine ⟨⟨st, ?_, ?_, ?_, ?_, ?_⟩, ?_⟩
  · rw [sweepLoopIface_map_some, List.length_map, List.length_map]
    exact hrun
  · rw [getSpanOverlapsIface_map_some]
    exact hres
  · rw [sweepCondIface_map_some]
    exact hc
  · rw [List.length_map]
    exact hi
  · rw [List.length_map]
    exact hj
  · intro st0 hc0
    rw [sweepCondIface_map_some] at hc0
    rw [sweepBodyIface_map_some]
    exact hbody st0 hc0

/-- Witness of the amended C12: base `[{0,10},{20,30}]`, apply `[{5,25}]`, both
without nil; the loop returns after three passes with the indices 2 and 0. -/
theorem getSpanOverlapsIface_terminates_witness :
    (∀ x ∈ [some (closedSpan 0 10), some (closedSpan 20 30)], x ≠ none) ∧
      (∀ x ∈ [some (closedSpan 5 25)], x ≠ none) ∧
      GetSpanOverlapsIface [some (closedSpan 0 10), some (closedSpan 20 30)]
          [some (closedSpan 5 25)]
        = .ok [closedSpan 5 10, closedSpan 20 25] ∧
      ∃ st, sweepLoopIface [some (closedSpan 0 10), some (closedSpan 20 30)]
            [some (closedSpan 5 25)] (2 + 1) ⟨0, 0, []⟩ = .ok st ∧
        GetSpanOverlapsIface [some (closedSpan 0 10), some (closedSpan 20 30)]
            [some (closedSpan 5 25)] = .ok st.overlaps ∧
        sweepCondIface [some (closedSpan 0 10), some (closedSpan 20 30)]
            [some (closedSpan 5 25)] st = false ∧
        st.baseSpanIdx ≤ 2 ∧ st.applySpanIdx ≤ 1 :=
  have hb : ∀ x ∈ [some (closedSpan 0 10), some (closedSpan 20 30)], x ≠ none := by
    intro x hx
    simp only [List.mem_cons, List.mem_singleton, List.not_mem_nil, or_false] at hx
    rcases hx with rfl | rfl <;> exact Option.some_ne_none _
  have ha : ∀ x ∈ [some (closedSpan 5 25)], x ≠ none := by
    intro x hx
    simp only [List.mem_singleton] at hx
    subst hx
    exact Option.some_ne_none _
  ⟨hb, ha, rfl,
    (getSpanOverlapsIface_terminates [some (closedSpan 0 10), some (closedSpan 20 30)]
      [some (closedSpan 5 25)] hb ha).1⟩

/-! ## Order of the result -/

theorem sortedByStart_getElem_le {S : Type} [Span S] {spans : List S}
    (h : SortedByStart spans) {i j : Nat} {x y : S} (hx : spans[i]? = some x)
    (hy : spans[j]? = some y) (hij : i ≤ j) : GetStartTS x ≤ GetStartTS y := by
  by_cases he : i = j
  · subst he
    rw [hx] at hy
    cases hy
    exact le_refl _
  · exact pairwise_of_getElem_some h hx hy (by omega)

/-- Order of the result for an implementation whose overlap starts at a
monotone function `key` of the two starts: on inputs sorted by start the
result is sorted by start. -/
theorem getSpanOverlaps_sorted_of_key {S : Type} [Span S] (key : Int → Int → Int)
    (hmono : ∀ x1 x2 y1 y2 : Int, x1 ≤ x2 → y1 ≤ y2 → key x1 y1 ≤ key x2 y2)
    (hkey : ∀ b a ov : S, SpanOverlap b a = some ov →
      GetStartTS ov = key (GetStartTS b) (GetStartTS a))
    (baseSpans applySpans : List S)
    (hsb : SortedByStart baseSpans) (hsa : SortedByStart applySpans) :
    ∃ result, GetSpanOverlaps baseSpans applySpans = .ok result ∧ SortedByStart result := by
  obtain ⟨st1, hres, hinv, -⟩ := getSpanOverlaps_invariant baseSpans applySpans
    (fun st => SortedByStart st.overlaps ∧
      ∀ r ∈ st.overlaps, ∀ (i j : Nat) (b a : S), st.baseSpanIdx ≤ i → st.applySpanIdx ≤ j →
        baseSpans[i]? = some b → applySpans[j]? = some a →
        GetStartTS r ≤ key (GetStartTS b) (GetStartTS a))
    (by
      intro st st1 hc hinv hst1
      obtain ⟨hsorted, hbound⟩ := hinv
      obtain ⟨b, a, hb, ha, hcase⟩ := sweepBody_cases baseSpans applySpans st hc
      have happend : ∀ ov : S, SpanOverlap b a = some ov →
          SortedByStart (st.overlaps ++ [ov]) := by
        intro ov hov
        unfold SortedByStart
        rw [List.pairwise_append]
        refine ⟨hsorted, List.pairwise_singleton _ _, ?_⟩
        intro r hr x hx
        rw [List.mem_singleton] at hx
        subst hx
        rw [hkey b a x hov]
        exact hbound r hr _ _ b a (le_refl _) (le_refl _) hb ha
      have hnew : ∀ ov : S, SpanOverlap b a = some ov →
          ∀ r ∈ st.overlaps ++ [ov], ∀ (i j : Nat) (b1 a1 : S), st.baseSpanIdx ≤ i →
            st.applySpanIdx ≤ j → baseSpans[i]? = some b1 → applySpans[j]? = some a1 →
            GetStartTS r ≤ key (GetStartTS b1) (GetStartTS a1) := by
        intro ov hov r hr i j b1 a1 hi hj hb1 ha1
        rcases List.mem_append.1 hr with hr | hr
        · exact hbound r hr i j b1 a1 hi hj hb1 ha1
        · rw [List.mem_singleton] at hr
          subst hr
          rw [hkey b a r hov]
          exact hmono _ _ _ _ (sortedByStart_getElem_le hsb hb hb1 hi)
            (sortedByStart_getElem_le hsa ha ha1 hj)
      rcases hcase with ⟨-, h1⟩ | ⟨-, -, h1⟩ | ⟨ov, -, hov, -, h1⟩ | ⟨ov, -, hov, -, h1⟩ <;>
        (rw [h1] at hst1; cases hst1)
      · refine ⟨hsorted, ?_⟩
        intro r hr i j b1 a1 hi hj
        simp only at hi hj
        exact hbound r hr i j b1 a1 (by omega) hj
      · refine ⟨hsorted, ?_⟩
        intro r hr i j b1 a1 hi hj
        simp only at hi hj
        exact hbound r hr i j b1 a1 hi (by omega)
      · refine ⟨happend ov hov, ?_⟩
        intro r hr i j b1 a1 hi hj
        simp only at hi hj
        exact hnew ov hov r hr i j b1 a1 (by omega) hj
      · refine ⟨happend ov hov, ?_⟩
        intro r hr i j b1 a1 hi hj
        simp only at hi hj
        exact hnew ov hov r hr i j b1 a1 hi (by omega))
    ⟨List.Pairwise.nil, by intro r hr; cases hr⟩
  exact ⟨st1.overlaps, hres, hinv.1⟩

/-- Order of the result with the record types of the repository, whose overlap
is the unchanged copy of the base span: sorted inputs give a sorted result. -/
theorem getSpanOverlaps_sorted_goSpan (baseSpans applySpans : List GoSpan)
    (hsb : SortedByStart baseSpans) (hsa : SortedByStart applySpans) :
    ∃ result, GetSpanOverlaps baseSpans applySpans = .ok result ∧ SortedByStart result := by
  refine getSpanOverlaps_sorted_of_key (fun x _ => x) (fun _ _ _ _ h _ => h) ?_
    baseSpans applySpans hsb hsa
  intro b a ov hov
  rw [spanOverlap_of_hasOverlap b a (hasOverlap_of_spanOverlap b a ov hov)] at hov
  cases hov
  cases b <;> rfl

/-- C11: for sequences sorted ascending by start, of spans whose setters
replace the field, the sweep returns its result in non-decreasing order of
start: every returned span starts no later than every span returned after it,
in particular consecutive ones. -/
theorem getSpanOverlaps_sorted {M : Type} (baseSpans applySpans : List (RecSpan M))
    (hsb : SortedByStart baseSpans) (hsa : SortedByStart applySpans) :
    ∃ result, GetSpanOverlaps baseSpans applySpans = .ok result ∧ SortedByStart result ∧
      ∀ (k : Nat) (r1 r2 : RecSpan M), result[k]? = some r1 → result[k + 1]? = some r2 →
        GetStartTS r1 ≤ GetStartTS r2 := by
  obtain ⟨result, hres, hsorted⟩ := getSpanOverlaps_sorted_of_key MaxStartTS
    (by
      intro x1 x2 y1 y2 hx hy
      rw [maxStartTS_eq_max, maxStartTS_eq_max]
      omega)
    (fun b a ov hov => spanOverlap_start b a ov hov) baseSpans applySpans hsb hsa
  exact ⟨result, hres, hsorted,
    fun k r1 r2 h1 h2 => pairwise_of_getElem_some hsorted h1 h2 (by omega)⟩

/-- Witness of C11: base `[{0,10},{20,30}]`, apply `[{5,25}]`, result
`[{5,10},{20,25}]`. -/
theorem getSpanOverlaps_sorted_witness :
    SortedByStart [closedSpan 0 10, closedSpan 20 30] ∧ SortedByStart [closedSpan 5 25] ∧
      GetSpanOverlaps [closedSpan 0 10, closedSpan 20 30] [closedSpan 5 25]
        = .ok [closedSpan 5 10, closedSpan 20 25] ∧
      ∃ result, GetSpanOverlaps [closedSpan 0 10, closedSpan 20 30] [closedSpan 5 25]
          = .ok result ∧ SortedByStart result ∧
        ∀ (k : Nat) (r1 r2 : RecSpan Unit), result[k]? = some r1 → result[k + 1]? = some r2 →
          GetStartTS r1 ≤ GetStartTS r2 :=
  have hsb : SortedByStart [closedSpan 0 10, closedSpan 20 30] := by
    unfold SortedByStart; decide
  have hsa : SortedByStart [closedSpan 5 25] := by unfold SortedByStart; decide
  ⟨hsb, hsa, rfl,
    getSpanOverlaps_sorted [closedSpan 0 10, closedSpan 20 30] [closedSpan 5 25] hsb hsa⟩

/-! ## Soundness of the sweep -/

/-- One pass through the loop body extends the attribution: the pairs
recorded so far stay, and the current pair is recorded if its spans overlap. -/
theorem attributed_step {S : Type} [Span S] (baseSpans applySpans : List S)
    (st st1 : SweepState S) (pairs : List (Nat × Nat))
    (hc : sweepCond baseSpans applySpans st = true)
    (hattr : Attributed baseSpans applySpans st pairs)
    (hst1 : sweepBody baseSpans applySpans st = .ok st1) :
    ∃ pairs1, Attributed baseSpans applySpans st1 pairs1 ∧ (∀ p ∈ pairs, p ∈ pairs1) ∧
      ∀ b a, baseSpans[st.baseSpanIdx]? = some b → applySpans[st.applySpanIdx]? = some a →
        HasOverlap b a = true → (st.baseSpanIdx, st.applySpanIdx) ∈ pairs1 := by
  obtain ⟨hrel, hpw, hlt⟩ := hattr
  obtain ⟨b, a, hb, ha, hcase⟩ := sweepBody_cases baseSpans applySpans st hc
  have hext : ∀ ov : S, HasOverlap b a = true → SpanOverlap b a = some ov →
      List.Forall₂ (FromPair baseSpans applySpans) (st.overlaps ++ [ov])
          (pairs ++ [(st.baseSpanIdx, st.applySpanIdx)]) ∧
        (pairs ++ [(st.baseSpanIdx, st.applySpanIdx)]).Pairwise
          (fun p q => p.1 + p.2 < q.1 + q.2) := by
    intro ov ho hov
    constructor
    · exact List.rel_append hrel
        (List.Forall₂.cons ⟨b, a, hb, ha, ho, hov⟩ List.Forall₂.nil)
    · rw [List.pairwise_append]
      refine ⟨hpw, List.pairwise_singleton _ _, ?_⟩
      intro p hp q hq
      rw [List.mem_singleton] at hq
      subst hq
      exact hlt p hp
  rcases hcase with ⟨hl, h1⟩ | ⟨-, hr, h1⟩ | ⟨ov, ho, hov, -, h1⟩ | ⟨ov, ho, hov, -, h1⟩ <;>
    (rw [h1] at hst1; cases hst1)
  · refine ⟨pairs, ⟨hrel, hpw, ?_⟩, fun p hp => hp, ?_⟩
    · intro p hp
      have := hlt p hp
      simp only
      omega
    · intro b1 a1 hb1 ha1 ho1
      rw [hb] at hb1; cases hb1
      rw [ha] at ha1; cases ha1
      rw [((hasOverlap_eq_true_iff b a).1 ho1).1] at hl
      cases hl
  · refine ⟨pairs, ⟨hrel, hpw, ?_⟩, fun p hp => hp, ?_⟩
    · intro p hp
      have := hlt p hp
      simp only
      omega
    · intro b1 a1 hb1 ha1 ho1
      rw [hb] at hb1; cases hb1
      rw [ha] at ha1; cases ha1
      rw [((hasOverlap_eq_true_iff b a).1 ho1).2] at hr
      cases hr
  · refine ⟨pairs ++ [(st.baseSpanIdx, st.applySpanIdx)],
      ⟨(hext ov ho hov).1, (hext ov ho hov).2, ?_⟩,
      fun p hp => List.mem_append_left _ hp,
      fun _ _ _ _ _ => List.mem_append_right _ (List.mem_singleton_self _)⟩
    intro p hp
    simp only
    rcases List.mem_append.1 hp with hp | hp
    · have := hlt p hp
      omega
    · rw [List.mem_singleton] at hp
      subst hp
      simp only
      omega
  · refine ⟨pairs ++ [(st.baseSpanIdx, st.applySpanIdx)],
      ⟨(hext ov ho hov).1, (hext ov ho hov).2, ?_⟩,
      fun p hp => List.mem_append_left _ hp,
      fun _ _ _ _ _ => List.mem_append_right _ (List.mem_singleton_self _)⟩
    intro p hp
    simp only
    rcases List.mem_append.1 hp with hp | hp
    · have := hlt p hp
      omega
    · rw [List.mem_singleton] at hp
      subst hp
      simp only
      omega

theorem nodup_of_sums_increasing (pairs : List (Nat × Nat))
    (h : pairs.Pairwise (fun p q => p.1 + p.2 < q.1 + q.2)) : pairs.Nodup := by
  unfold List.Nodup
  refine List.Pairwise.imp ?_ h
  intro p q hpq heq
  subst heq
  omega

theorem forall₂_mem_left {α β : Type} {R : α → β → Prop} {l1 : List α} {l2 : List β}
    (h : List.Forall₂ R l1 l2) : ∀ x ∈ l1, ∃ y ∈ l2, R x y := by
  induction h with
  | nil => intro x hx; cases hx
  | cons hr _ ih =>
    intro x hx
    rcases List.mem_cons.1 hx with hx | hx
    · subst hx
      exact ⟨_, List.mem_cons_self _ _, hr⟩
    · obtain ⟨y, hy, hxy⟩ := ih x hx
      exact ⟨y, List.mem_cons_of_mem _ hy, hxy⟩

theorem forall₂_mem_right {α β : Type} {R : α → β → Prop} {l1 : List α} {l2 : List β}
    (h : List.Forall₂ R l1 l2) : ∀ y ∈ l2, ∃ x ∈ l1, R x y := by
  induction h with
  | nil => intro y hy; cases hy
  | cons hr _ ih =>
    intro y hy
    rcases List.mem_cons.1 hy with hy | hy
    · subst hy
      exact ⟨_, List.mem_cons_self _ _, hr⟩
    · obtain ⟨x, hx, hxy⟩ := ih y hy
      exact ⟨x, List.mem_cons_of_mem _ hx, hxy⟩

/-- Soundness of the sweep for every implementation of the interface and all
inputs: the result is attributed, element by element, to a list of pairwise
distinct index pairs of overlapping spans. -/
theorem getSpanOverlaps_attributed {S : Type} [Span S] (baseSpans applySpans : List S) :
    ∃ result pairs, GetSpanOverlaps baseSpans applySpans = .ok result ∧
      List.Forall₂ (FromPair baseSpans applySpans) result pairs ∧ pairs.Nodup := by
  obtain ⟨st1, hres, ⟨pairs, hattr⟩, -⟩ := getSpanOverlaps_invariant baseSpans applySpans
    (fun st => ∃ pairs, Attributed baseSpans applySpans st pairs)
    (by
      rintro st st1 hc ⟨pairs, hattr⟩ hst1
      obtain ⟨pairs1, h1, -, -⟩ :=
        attributed_step baseSpans applySpans st st1 pairs hc hattr hst1
      exact ⟨pairs1, h1⟩)
    ⟨[], List.Forall₂.nil, List.Pairwise.nil, by intro p hp; cases hp⟩
  exact ⟨st1.overlaps, pairs, hres, hattr.1, nodup_of_sums_increasing pairs hattr.2.1⟩

/-- C18: for all sequences of spans whose setters replace the field, with no
precondition, every span of the result of the sweep is
`SpanOverlap(base[i], apply[j])` for indices `i`, `j` with
`HasOverlap(base[i], apply[j])`, and the elements of the result come, one
each, from pairwise distinct index pairs. -/
theorem getSpanOverlaps_sound {M : Type} (baseSpans applySpans : List (RecSpan M)) :
    ∃ result, GetSpanOverlaps baseSpans applySpans = .ok result ∧
      (∀ r ∈ result, ∃ (i j : Nat) (b a : RecSpan M), baseSpans[i]? = some b ∧
        applySpans[j]? = some a ∧ HasOverlap b a = true ∧ SpanOverlap b a = some r) ∧
      ∃ pairs : List (Nat × Nat),
        List.Forall₂ (FromPair baseSpans applySpans) result pairs ∧ pairs.Nodup := by
  obtain ⟨result, pairs, hres, hrel, hnd⟩ := getSpanOverlaps_attributed baseSpans applySpans
  refine ⟨result, hres, ?_, pairs, hrel, hnd⟩
  intro r hr
  obtain ⟨p, -, b, a, hb, ha, ho, hov⟩ := forall₂_mem_left hrel r hr
  exact ⟨p.1, p.2, b, a, hb, ha, ho, hov⟩

/-! ## Completeness and size of the result under the chained precondition -/

theorem leftOfLater_of_chained {S : Type} [Span S] (spans : List S) (hv : AllValid spans)
    (hc : Chained spans) : LeftOfLater spans := by
  induction spans with
  | nil => exact List.Pairwise.nil
  | cons x l ih =>
    have hvl : AllValid l := fun s hs => hv s (List.mem_cons_of_mem _ hs)
    have hcl : Chained l := List.Chain'.tail hc
    have ihl := ih hvl hcl
    unfold LeftOfLater
    rw [List.pairwise_cons]
    refine ⟨?_, ihl⟩
    intro y hy
    cases l with
    | nil => cases hy
    | cons y0 l1 =>
      have hxy0 : SpanLeftOf x y0 = true := (List.chain'_cons.1 hc).1
      rcases List.mem_cons.1 hy with hy | hy
      · subst hy
        exact hxy0
      · have hy0y : SpanLeftOf y0 y = true := (List.pairwise_cons.1 ihl).1 y hy
        have hvy0 := hv y0 (List.mem_cons_of_mem _ (List.mem_cons_self _ _))
        obtain ⟨e, he, hle⟩ := (spanLeftOf_iff x y0).1 hxy0
        obtain ⟨f, hf, hfle⟩ := (spanLeftOf_iff y0 y).1 hy0y
        simp only [IsValid, hf, decide_eq_true_eq] at hvy0
        exact (spanLeftOf_iff x y).2 ⟨e, he, by omega⟩

theorem sortedByStart_of_leftOfLater {S : Type} [Span S] (spans : List S)
    (hv : AllValid spans) (hl : LeftOfLater spans) : SortedByStart spans := by
  unfold SortedByStart
  refine List.Pairwise.imp_of_mem ?_ hl
  intro x y hx _ hxy
  obtain ⟨e, he, hle⟩ := (spanLeftOf_iff x y).1 hxy
  have hvx := hv x hx
  simp only [IsValid, he, decide_eq_true_eq] at hvx
  omega

/-- In sequences sorted by start with every span left of every later one, the
only overlapping pair that a pass through the loop body moves past is the
current pair. -/
theorem newly_passed_pair {M : Type} (baseSpans applySpans : List (RecSpan M))
    (hsb : SortedByStart baseSpans) (hsa : SortedByStart applySpans)
    (hlb : LeftOfLater baseSpans) (hla : LeftOfLater applySpans)
    (st st1 : SweepState (RecSpan M)) (hc : sweepCond baseSpans applySpans st = true)
    (hst1 : sweepBody baseSpans applySpans st = .ok st1)
    (i j : Nat) (b1 a1 : RecSpan M) (hb1 : baseSpans[i]? = some b1)
    (ha1 : applySpans[j]? = some a1) (ho1 : HasOverlap b1 a1 = true)
    (hlt : i < st1.baseSpanIdx ∨ j < st1.applySpanIdx) :
    (i < st.baseSpanIdx ∨ j < st.applySpanIdx) ∨
      (i = st.baseSpanIdx ∧ j = st.applySpanIdx) := by
  obtain ⟨b, a, hb, ha, hcase⟩ := sweepBody_cases baseSpans applySpans st hc
  have hnl : SpanLeftOf b1 a1 = false := ((hasOverlap_eq_true_iff b1 a1).1 ho1).1
  have hnr : SpanRightOf b1 a1 = false := ((hasOverlap_eq_true_iff b1 a1).1 ho1).2
  by_cases hold : i < st.baseSpanIdx ∨ j < st.applySpanIdx
  · exact Or.inl hold
  right
  rcases hcase with ⟨hl, h1⟩ | ⟨-, hr, h1⟩ | ⟨ov0, -, hov0, he, h1⟩ | ⟨ov0, -, hov0, he, h1⟩ <;>
    (rw [h1] at hst1; cases hst1; simp only at hlt)
  · exfalso
    have hi : i = st.baseSpanIdx := by omega
    subst hi
    have hbeq : b1 = b := by rw [hb] at hb1; exact (Option.some.inj hb1).symm
    subst hbeq
    obtain ⟨e, hbe, hle⟩ := (spanLeftOf_iff b1 a).1 hl
    have hstart := sortedByStart_getElem_le hsa ha ha1 (by omega)
    have : SpanLeftOf b1 a1 = true := (spanLeftOf_iff b1 a1).2 ⟨e, hbe, le_trans hle hstart⟩
    rw [this] at hnl; cases hnl
  · exfalso
    have hj : j = st.applySpanIdx := by omega
    subst hj
    have haeq : a1 = a := by rw [ha] at ha1; exact (Option.some.inj ha1).symm
    subst haeq
    obtain ⟨f, haf, hle⟩ := (spanRightOf_iff b a1).1 hr
    have hstart := sortedByStart_getElem_le hsb hb hb1 (by omega)
    have : SpanRightOf b1 a1 = true :=
      (spanRightOf_iff b1 a1).2 ⟨f, haf, le_trans hle hstart⟩
    rw [this] at hnr; cases hnr
  · have hi : i = st.baseSpanIdx := by omega
    refine ⟨hi, ?_⟩
    subst hi
    have hbeq : b1 = b := by rw [hb] at hb1; exact (Option.some.inj hb1).symm
    subst hbeq
    by_contra hj
    have hchain : SpanLeftOf a a1 = true := pairwise_of_getElem_some hla ha ha1 (by omega)
    obtain ⟨f, haf, hle⟩ := (spanLeftOf_iff a a1).1 hchain
    obtain ⟨e, hbe, hef⟩ := endsAtSameTime_overlap_true b1 a ov0 hov0 he f haf
    have : SpanLeftOf b1 a1 = true := (spanLeftOf_iff b1 a1).2 ⟨e, hbe, le_trans hef hle⟩
    rw [this] at hnl; cases hnl
  · have hj : j = st.applySpanIdx := by omega
    refine ⟨?_, hj⟩
    subst hj
    have haeq : a1 = a := by rw [ha] at ha1; exact (Option.some.inj ha1).symm
    subst haeq
    by_contra hi
    have hchain : SpanLeftOf b b1 = true := pairwise_of_getElem_some hlb hb hb1 (by omega)
    obtain ⟨e, hbe, hle⟩ := (spanLeftOf_iff b b1).1 hchain
    obtain ⟨f, haf, hfe⟩ := endsAtSameTime_overlap_false b a1 ov0 hov0 he e hbe
    have : SpanRightOf b1 a1 = true :=
      (spanRightOf_iff b1 a1).2 ⟨f, haf, le_trans (le_of_lt hfe) hle⟩
    rw [this] at hnr; cases hnr

theorem mem_overlapPairs {S : Type} [Span S] (baseSpans applySpans : List S) (p : Nat × Nat) :
    p ∈ overlapPairs baseSpans applySpans ↔
      ∃ b a, baseSpans[p.1]? = some b ∧ applySpans[p.2]? = some a ∧ HasOverlap b a = true := by
  unfold overlapPairs
  rw [List.mem_filter]
  obtain ⟨i, j⟩ := p
  simp only [List.pair_mem_product, List.mem_range]
  constructor
  · rintro ⟨⟨hi, hj⟩, h⟩
    rw [List.getElem?_eq_getElem hi, List.getElem?_eq_getElem hj] at h ⊢
    exact ⟨_, _, rfl, rfl, h⟩
  · rintro ⟨b, a, hb, ha, ho⟩
    obtain ⟨hi, -⟩ := List.getElem?_eq_some.1 hb
    obtain ⟨hj, -⟩ := List.getElem?_eq_some.1 ha
    refine ⟨⟨hi, hj⟩, ?_⟩
    rw [hb, ha]
    exact ho

theorem nodup_overlapPairs {S : Type} [Span S] (baseSpans applySpans : List S) :
    (overlapPairs baseSpans applySpans).Nodup :=
  List.Nodup.filter _ (List.Nodup.product (List.nodup_range _) (List.nodup_range _))

/-- Sweep of two sequences, each sorted by start with every span left of every
later one: the result is attributed, element by element, to a list that holds
every index pair of overlapping spans exactly once. -/
theorem getSpanOverlaps_exact (M : Type) (baseSpans applySpans : List (RecSpan M))
    (hsb : SortedByStart baseSpans) (hsa : SortedByStart applySpans)
    (hlb : LeftOfLater baseSpans) (hla : LeftOfLater applySpans) :
    ∃ result pairs, GetSpanOverlaps baseSpans applySpans = .ok result ∧
      List.Forall₂ (FromPair baseSpans applySpans) result pairs ∧
      pairs.Perm (overlapPairs baseSpans applySpans) := by
  obtain ⟨st1, hres, ⟨pairs, hattr, hall⟩, hc⟩ := getSpanOverlaps_invariant
    baseSpans applySpans
    (fun st => ∃ pairs, Attributed baseSpans applySpans st pairs ∧
      ∀ (i j : Nat) (b a : RecSpan M), baseSpans[i]? = some b → applySpans[j]? = some a →
        HasOverlap b a = true → i < st.baseSpanIdx ∨ j < st.applySpanIdx → (i, j) ∈ pairs)
    (by
      rintro st st1 hc ⟨pairs, hattr, hall⟩ hst1
      obtain ⟨pairs1, h1, hsub, hcur⟩ :=
        attributed_step baseSpans applySpans st st1 pairs hc hattr hst1
      refine ⟨pairs1, h1, ?_⟩
      intro i j b a hb ha ho hlt
      rcases newly_passed_pair baseSpans applySpans hsb hsa hlb hla st st1 hc hst1
          i j b a hb ha ho hlt with hold | ⟨hi, hj⟩
      · exact hsub _ (hall i j b a hb ha ho hold)
      · subst hi
        subst hj
        exact hcur b a hb ha ho)
    ⟨[], ⟨List.Forall₂.nil, List.Pairwise.nil, by intro p hp; cases hp⟩,
      by intro i j b a _ _ _ hlt; simp at hlt⟩
  refine ⟨st1.overlaps, pairs, hres, hattr.1, ?_⟩
  rw [List.perm_ext_iff_of_nodup (nodup_of_sums_increasing pairs hattr.2.1)
    (nodup_overlapPairs baseSpans applySpans)]
  intro p
  rw [mem_overlapPairs]
  constructor
  · intro hp
    obtain ⟨r, -, b, a, hb, ha, ho, -⟩ := forall₂_mem_right hattr.1 p hp
    exact ⟨b, a, hb, ha, ho⟩
  · rintro ⟨b, a, hb, ha, ho⟩
    apply hall p.1 p.2 b a hb ha ho
    obtain ⟨hi, -⟩ := List.getElem?_eq_some.1 hb
    obtain ⟨hj, -⟩ := List.getElem?_eq_some.1 ha
    have hc1 : ¬ (st1.baseSpanIdx < baseSpans.length ∧
        st1.applySpanIdx < applySpans.length) := by
      intro h
      rw [(sweepCond_iff baseSpans applySpans st1).2 h] at hc
      cases hc
    omega

/-- C19, as stated, fails with the record types of the repository: base
`[{5,25}]` and apply `[{0,10},{20,30}]` hold valid spans, each left of its
successor, and the base span overlaps both apply spans, but the sweep returns
one span, the unchanged copy of the base span: the overlap it builds still has
the end of the base span, so the base index moves on after the first pair. -/
theorem getSpanOverlaps_chained_count_fails_on_records :
    AllValid [usageSpan 5 (some 25)] ∧
      AllValid [propertySpan 0 (some 10), propertySpan 20 (some 30)] ∧
      Chained [usageSpan 5 (some 25)] ∧
      Chained [propertySpan 0 (some 10), propertySpan 20 (some 30)] ∧
      HasOverlap (usageSpan 5 (some 25)) (propertySpan 0 (some 10)) = true ∧
      HasOverlap (usageSpan 5 (some 25)) (propertySpan 20 (some 30)) = true ∧
      overlapPairs [usageSpan 5 (some 25)]
          [propertySpan 0 (some 10), propertySpan 20 (some 30)] = [(0, 0), (0, 1)] ∧
      GetSpanOverlaps [usageSpan 5 (some 25)]
          [propertySpan 0 (some 10), propertySpan 20 (some 30)]
        = .ok [usageSpan 5 (some 25)] ∧
      ¬ ∃ result, GetSpanOverlaps [usageSpan 5 (some 25)]
            [propertySpan 0 (some 10), propertySpan 20 (some 30)] = .ok result ∧
          (∀ (i j : Nat) (b a : GoSpan), [usageSpan 5 (some 25)][i]? = some b →
            [propertySpan 0 (some 10), propertySpan 20 (some 30)][j]? = some a →
            HasOverlap b a = true →
            ∃ ov, SpanOverlap b a = some ov ∧
              ∃ r ∈ result, GetStartTS r = GetStartTS ov ∧ GetEndTS r = GetEndTS ov) ∧
          result.length = (overlapPairs [usageSpan 5 (some 25)]
            [propertySpan 0 (some 10), propertySpan 20 (some 30)]).length := by
  have hres : GetSpanOverlaps [usageSpan 5 (some 25)]
      [propertySpan 0 (some 10), propertySpan 20 (some 30)]
        = .ok [usageSpan 5 (some 25)] := rfl
  have hpairs : overlapPairs [usageSpan 5 (some 25)]
      [propertySpan 0 (some 10), propertySpan 20 (some 30)] = [(0, 0), (0, 1)] := by
    decide
  refine ⟨?_, ?_, List.chain'_singleton _, List.chain'_pair.2 (by decide), by decide,
    by decide, hpairs, hres, ?_⟩
  · intro s hs
    rw [List.mem_singleton] at hs
    subst hs
    decide
  · intro s hs
    simp only [List.mem_cons, List.mem_singleton, List.not_mem_nil, or_false] at hs
    rcases hs with rfl | rfl <;> decide
  · rintro ⟨result, h, -, hlen⟩
    rw [hres] at h
    cases h
    rw [hpairs] at hlen
    simp at hlen

/-- C19, amended: for sequences of valid spans whose setters replace the field,
in which every span is `SpanLeftOf` its successor, the sweep returns a result
that holds, for every overlapping pair `base[i]`, `apply[j]`, a span with the
start and end of `SpanOverlap(base[i], apply[j])`, and that has exactly as many
elements as there are overlapping index pairs. -/
theorem getSpanOverlaps_complete_chained {M : Type}
    (baseSpans applySpans : List (RecSpan M))
    (hvb : AllValid baseSpans) (hva : AllValid applySpans)
    (hcb : Chained baseSpans) (hca : Chained applySpans) :
    ∃ result, GetSpanOverlaps baseSpans applySpans = .ok result ∧
      (∀ (i j : Nat) (b a : RecSpan M), baseSpans[i]? = some b → applySpans[j]? = some a →
        HasOverlap b a = true →
        ∃ ov, SpanOverlap b a = some ov ∧
          ∃ r ∈ result, GetStartTS r = GetStartTS ov ∧ GetEndTS r = GetEndTS ov) ∧
      result.length = (overlapPairs baseSpans applySpans).length := by
  have hlb := leftOfLater_of_chained baseSpans hvb hcb
  have hla := leftOfLater_of_chained applySpans hva hca
  obtain ⟨result, pairs, hres, hrel, hperm⟩ := getSpanOverlaps_exact M baseSpans applySpans
    (sortedByStart_of_leftOfLater baseSpans hvb hlb)
    (sortedByStart_of_leftOfLater applySpans hva hla) hlb hla
  refine ⟨result, hres, ?_, ?_⟩
  · intro i j b a hb ha ho
    have hmem : (i, j) ∈ pairs :=
      hperm.mem_iff.2 ((mem_overlapPairs baseSpans applySpans (i, j)).2 ⟨b, a, hb, ha, ho⟩)
    obtain ⟨r, hr, b1, a1, hb1, ha1, -, hov⟩ := forall₂_mem_right hrel (i, j) hmem
    simp only at hb1 ha1
    rw [hb] at hb1; cases hb1
    rw [ha] at ha1; cases ha1
    exact ⟨r, hov, r, hr, rfl, rfl⟩
  · rw [hrel.length_eq, hperm.length_eq]

/-- Witness of the amended C19: base `[{0,10},{20,30}]`, apply `[{5,25}]`, with the two
overlapping pairs `(0,0)` and `(1,0)` and the result `[{5,10},{20,25}]`. -/
theorem getSpanOverlaps_complete_chained_witness :
    AllValid [closedSpan 0 10, closedSpan 20 30] ∧ AllValid [closedSpan 5 25] ∧
      Chained [closedSpan 0 10, closedSpan 20 30] ∧ Chained [closedSpan 5 25] ∧
      GetSpanOverlaps [closedSpan 0 10, closedSpan 20 30] [closedSpan 5 25]
        = .ok [closedSpan 5 10, closedSpan 20 25] ∧
      overlapPairs [closedSpan 0 10, closedSpan 20 30] [closedSpan 5 25] = [(0, 0), (1, 0)] ∧
      ∃ result, GetSpanOverlaps [closedSpan 0 10, closedSpan 20 30] [closedSpan 5 25]
          = .ok result ∧
        (∀ (i j : Nat) (b a : RecSpan Unit),
          [closedSpan 0 10, closedSpan 20 30][i]? = some b → [closedSpan 5 25][j]? = some a →
          HasOverlap b a = true →
          ∃ ov, SpanOverlap b a = some ov ∧
            ∃ r ∈ result, GetStartTS r = GetStartTS ov ∧ GetEndTS r = GetEndTS ov) ∧
        result.length
          = (overlapPairs [closedSpan 0 10, closedSpan 20 30] [closedSpan 5 25]).length :=
  have hvb : AllValid [closedSpan 0 10, closedSpan 20 30] := by
    simp [AllValid, IsValid, closedSpan, GetEndTS, GetStartTS]
  have hva : AllValid [closedSpan 5 25] := by
    simp [AllValid, IsValid, closedSpan, GetEndTS, GetStartTS]
  have hcb : Chained [closedSpan 0 10, closedSpan 20 30] :=
    List.chain'_pair.2 (by decide)
  have hca : Chained [closedSpan 5 25] := List.chain'_singleton _
  ⟨hvb, hva, hcb, hca, rfl, by decide,
    getSpanOverlaps_complete_chained [closedSpan 0 10, closedSpan 20 30] [closedSpan 5 25]
      hvb hva hcb hca⟩

/-! ## The type-preserving sweep refines the sweep -/

section Refinement

variable {S T U : Type} [Span S] [SpanImpl T S] [SpanImpl U S]

omit [Span S] in
theorem index_toSpan {α β : Type} (f : α → β) (l : List α) (i : Nat) (x : α)
    (h : index l i = .ok x) : index (l.map f) i = .ok (f x) := by
  unfold index at h ⊢
  rw [List.getElem?_map]
  cases hl : l[i]? with
  | none => simp [hl] at h
  | some y =>
    simp only [hl, Except.ok.injEq] at h
    subst h
    rfl

/-- When `Copy` of the base span holds a `T`, the cast succeeds and the
type-preserving overlap is the overlap. -/
theorem genericSpanOverlap_toSpan (b : T) (a : U)
    (hcopy : ∃ t : T, SpanImpl.Copy b = SpanImpl.toSpan t)
    (ho : HasOverlap (SpanImpl.toSpan b : S) (SpanImpl.toSpan a) = true) :
    ∃ ov : T, GenericSpanOverlap b a = .ok ov ∧
      SpanOverlap (SpanImpl.toSpan b : S) (SpanImpl.toSpan a) = some (SpanImpl.toSpan ov) := by
  obtain ⟨t, ht⟩ := hcopy
  have hcast : castTo T (SpanImpl.Copy b : S) = .ok t := by
    unfold castTo
    rw [ht, (SpanImpl.assertType_eq_some (SpanImpl.toSpan t : S) t).2 rfl]
  refine ⟨SpanImpl.SetEndTS (SpanImpl.SetStartTS t
      (MaxStartTS (SpanImpl.GetStartTS b) (SpanImpl.GetStartTS a)))
    (MinEndTS (SpanImpl.GetEndTS b) (SpanImpl.GetEndTS a)), ?_, ?_⟩
  · simp only [GenericSpanOverlap, ho, if_true, hcast, bind, Except.bind, pure, Except.pure]
  · rw [spanOverlap_of_hasOverlap _ _ ho, SpanImpl.copy_toSpan, ht,
      SpanImpl.setStartTS_toSpan, SpanImpl.setEndTS_toSpan, SpanImpl.getStartTS_toSpan,
      SpanImpl.getStartTS_toSpan, SpanImpl.getEndTS_toSpan, SpanImpl.getEndTS_toSpan]

/-- One pass through the body of the type-preserving loop is one pass through
the body of the loop on the converted state. -/
theorem genericSweepBody_toSpan (baseSpans : List T) (applySpans : List U)
    (hcopy : ∀ b ∈ baseSpans, ∃ t : T, SpanImpl.Copy b = SpanImpl.toSpan t)
    (st : SweepState T) (hc : genericSweepCond baseSpans applySpans st = true) :
    ∃ st1, genericSweepBody baseSpans applySpans st = .ok st1 ∧
      sweepBody (baseSpans.map SpanImpl.toSpan) (applySpans.map SpanImpl.toSpan)
        (toSpanState st) = .ok (toSpanState st1 : SweepState S) := by
  simp only [genericSweepCond, Bool.and_eq_true, decide_eq_true_eq] at hc
  obtain ⟨hi, hj⟩ := hc
  have hb : index baseSpans st.baseSpanIdx = .ok baseSpans[st.baseSpanIdx] := by
    simp [index, List.getElem?_eq_getElem hi]
  have ha : index applySpans st.applySpanIdx = .ok applySpans[st.applySpanIdx] := by
    simp [index, List.getElem?_eq_getElem hj]
  have hmem : baseSpans[st.baseSpanIdx] ∈ baseSpans := List.getElem_mem hi
  generalize baseSpans[st.baseSpanIdx] = b at hb hmem
  generalize applySpans[st.applySpanIdx] = a at ha
  have hb1 := index_toSpan (SpanImpl.toSpan : T → S) baseSpans st.baseSpanIdx b hb
  have ha1 := index_toSpan (SpanImpl.toSpan : U → S) applySpans st.applySpanIdx a ha
  cases hl : SpanLeftOf (SpanImpl.toSpan b : S) (SpanImpl.toSpan a)
  · cases hr : SpanRightOf (SpanImpl.toSpan b : S) (SpanImpl.toSpan a)
    · have ho : HasOverlap (SpanImpl.toSpan b : S) (SpanImpl.toSpan a) = true :=
        (hasOverlap_eq_true_iff _ _).2 ⟨hl, hr⟩
      obtain ⟨ov, hgen, hov⟩ := genericSpanOverlap_toSpan b a (hcopy b hmem) ho
      cases he : EndsAtSameTime (SpanImpl.toSpan b : S) (SpanImpl.toSpan ov)
      · refine ⟨⟨st.baseSpanIdx, st.applySpanIdx + 1, st.overlaps ++ [ov]⟩, ?_, ?_⟩
        · simp [genericSweepBody, hb, ha, hl, hr, hgen, he, bind, Except.bind, pure,
            Except.pure]
        · simp [sweepBody, toSpanState, hb1, ha1, hl, hr, hov, he, deref, bind, Except.bind,
            pure, Except.pure]
      · refine ⟨⟨st.baseSpanIdx + 1, st.applySpanIdx, st.overlaps ++ [ov]⟩, ?_, ?_⟩
        · simp [genericSweepBody, hb, ha, hl, hr, hgen, he, bind, Except.bind, pure,
            Except.pure]
        · simp [sweepBody, toSpanState, hb1, ha1, hl, hr, hov, he, deref, bind, Except.bind,
            pure, Except.pure]
    · refine ⟨⟨st.baseSpanIdx, st.applySpanIdx + 1, st.overlaps⟩, ?_, ?_⟩
      · simp [genericSweepBody, hb, ha, hl, hr, bind, Except.bind, pure, Except.pure]
      · simp [sweepBody, toSpanState, hb1, ha1, hl, hr, bind, Except.bind, pure, Except.pure]
  · refine ⟨⟨st.baseSpanIdx + 1, st.applySpanIdx, st.overlaps⟩, ?_, ?_⟩
    · simp [genericSweepBody, hb, ha, hl, bind, Except.bind, pure, Except.pure]
    · simp [sweepBody, toSpanState, hb1, ha1, hl, bind, Except.bind, pure, Except.pure]

theorem sweepCond_toSpan (baseSpans : List T) (applySpans : List U) (st : SweepState T) :
    sweepCond (baseSpans.map SpanImpl.toSpan) (applySpans.map SpanImpl.toSpan)
        (toSpanState st : SweepState S) = genericSweepCond baseSpans applySpans st := by
  simp [sweepCond, genericSweepCond, toSpanState]

/-- The type-preserving loop and the loop on the converted inputs run in
lockstep: with the same fuel they fault together or return states that agree
after conversion. -/
theorem genericSweepLoop_toSpan (baseSpans : List T) (applySpans : List U)
    (hcopy : ∀ b ∈ baseSpans, ∃ t : T, SpanImpl.Copy b = SpanImpl.toSpan t) :
    ∀ (fuel : Nat) (st : SweepState T),
      sweepLoop (baseSpans.map SpanImpl.toSpan) (applySpans.map SpanImpl.toSpan) fuel
          (toSpanState st : SweepState S)
        = match genericSweepLoop baseSpans applySpans fuel st with
          | .ok st1 => .ok (toSpanState st1)
          | .error e => .error e := by
  intro fuel
  induction fuel with
  | zero =>
    intro st
    simp only [sweepLoop, genericSweepLoop, sweepCond_toSpan]
    split <;> rfl
  | succ n ih =>
    intro st
    simp only [sweepLoop, genericSweepLoop, sweepCond_toSpan]
    cases hc : genericSweepCond baseSpans applySpans st
    · rfl
    · obtain ⟨st1, hgen, hstep⟩ := genericSweepBody_toSpan baseSpans applySpans hcopy st hc
      simp only [if_true, hgen, hstep]
      exact ih st1

end Refinement

/-- C13: for sequences `base` of a type `T` and `apply` of a type `U`, both
implementing `Span`, such that `Copy` of every base span holds a `T` (so the
cast succeeds), `GenericGetSpanOverlaps` returns a sequence that, converted to
the interface type, is the sequence `GetSpanOverlaps` returns on the converted
inputs. -/
theorem genericGetSpanOverlaps_refines {S T U : Type} [Span S] [SpanImpl T S] [SpanImpl U S]
    (baseSpans : List T) (applySpans : List U)
    (hcopy : ∀ b ∈ baseSpans, ∃ t : T, SpanImpl.Copy b = SpanImpl.toSpan t) :
    ∃ result : List T, GenericGetSpanOverlaps baseSpans applySpans = .ok result ∧
      GetSpanOverlaps (baseSpans.map SpanImpl.toSpan) (applySpans.map SpanImpl.toSpan)
        = .ok (result.map (SpanImpl.toSpan : T → S)) := by
  obtain ⟨stS, hrun, -, -⟩ := sweepLoop_invariant
    (baseSpans.map (SpanImpl.toSpan : T → S)) (applySpans.map (SpanImpl.toSpan : U → S))
    (fun _ => True) (fun _ _ _ _ _ => trivial)
    ((baseSpans.map (SpanImpl.toSpan : T → S)).length +
      (applySpans.map (SpanImpl.toSpan : U → S)).length)
    (toSpanState (⟨0, 0, []⟩ : SweepState T)) (by simp [toSpanState]) trivial
  simp only [List.length_map] at hrun
  have hsim := genericSweepLoop_toSpan (S := S) baseSpans applySpans hcopy
    (baseSpans.length + applySpans.length) ⟨0, 0, []⟩
  rw [hrun] at hsim
  cases hgen : genericSweepLoop baseSpans applySpans (baseSpans.length + applySpans.length)
      ⟨0, 0, []⟩ with
  | error e => rw [hgen] at hsim; cases hsim
  | ok stT =>
    rw [hgen] at hsim
    simp only [Except.ok.injEq] at hsim
    refine ⟨stT.overlaps, by simp [GenericGetSpanOverlaps, hgen], ?_⟩
    have h0 : (toSpanState (⟨0, 0, []⟩ : SweepState T) : SweepState S) = ⟨0, 0, []⟩ := rfl
    rw [h0] at hrun
    simp only [GetSpanOverlaps, List.length_map, hrun, hsim]
    rfl

/-- Witness of C13 at the spans built in `main`, with `T = UsageSpan` and
`U = PropertySpan`. -/
theorem genericGetSpanOverlaps_refines_witness :
    (∀ b ∈ [mainUsage], ∃ t : UsageSpan,
        (SpanImpl.Copy b : GoSpan) = SpanImpl.toSpan t) ∧
      GenericGetSpanOverlaps [mainUsage] [mainProperty] = .ok [mainUsage] ∧
      ∃ result : List UsageSpan,
        GenericGetSpanOverlaps [mainUsage] [mainProperty] = .ok result ∧
        GetSpanOverlaps ([mainUsage].map SpanImpl.toSpan)
            ([mainProperty].map SpanImpl.toSpan)
          = .ok (result.map (SpanImpl.toSpan : UsageSpan → GoSpan)) :=
  have hcopy : ∀ b ∈ [mainUsage], ∃ t : UsageSpan,
      (SpanImpl.Copy b : GoSpan) = SpanImpl.toSpan t :=
    fun b _ => ⟨b.Copy, rfl⟩
  ⟨hcopy, rfl, genericGetSpanOverlaps_refines [mainUsage] [mainProperty] hcopy⟩

end SpanTestbed
